import Mathlib

set_option maxRecDepth 20000

/-!
Verification development for the GDD Studio single-page application
(src/app.js). JS strings are modelled as lists of characters, JS objects
as insertion-ordered association lists, and the external environment
(current time, locale date rendering, date parsing) as an explicit
record of parameters. Each definition is a direct translation of the
corresponding function in src/app.js.
-/

/-- Characters of a JS string, modelled at code-point level. -/
abbrev Str := List Char

/-- Character list of a Lean string literal. -/
def strL (x : String) : Str := x.data

/-- JS whitespace class (the common members actually reachable here):
space, tab, line feed, vertical tab, form feed, carriage return,
no-break space and BOM. Used for trim and the regex class \s. -/
def isWs (c : Char) : Bool :=
  c = ' ' || c = '\t' || c = '\n' || c = '\x0b' || c = '\x0c' ||
  c = '\r' || c = ' ' || c = '﻿'

/-- JS String.prototype.toLowerCase on one character, for the ASCII and
Latin-1 letters plus U+0178 (the only non-Latin-1 character appearing in
the sources); other characters are returned unchanged. -/
def jsToLower (c : Char) : Char :=
  if 65 ≤ c.toNat ∧ c.toNat ≤ 90 then Char.ofNat (c.toNat + 32)
  else if 192 ≤ c.toNat ∧ c.toNat ≤ 222 ∧ c.toNat ≠ 215 then Char.ofNat (c.toNat + 32)
  else if c.toNat = 376 then Char.ofNat 255
  else c

/-- JS String.prototype.trimStart. -/
def trimLeftWs (l : Str) : Str := l.dropWhile isWs

/-- JS String.prototype.trimEnd. -/
def trimRightWs (l : Str) : Str := (l.reverse.dropWhile isWs).reverse

/-- JS String.prototype.trim. -/
def trimJs (l : Str) : Str := trimRightWs (trimLeftWs l)

/-- JS String.prototype.split with a one-character separator:
"".split(c) = [""], and a trailing separator yields a trailing "". -/
def splitOnChar (sep : Char) : Str → List Str
  | [] => [[]]
  | c :: cs =>
    if c = sep then [] :: splitOnChar sep cs
    else
      match splitOnChar sep cs with
      | [] => [[c]]
      | l :: ls => (c :: l) :: ls

/-- Splitting a document into lines: split on the newline character. -/
def splitNl (x : Str) : List Str := splitOnChar '\n' x

/-- JS Array.prototype.join with separator sep. -/
def joinSep (sep : Str) : List Str → Str
  | [] => []
  | [l] => l
  | l :: l2 :: ls => l ++ sep ++ joinSep sep (l2 :: ls)

/-- Joining lines with newline separators (lines.join with a newline). -/
def joinNl (ls : List Str) : Str := joinSep (strL ("\n")) ls

/-- Every line followed by a newline terminator; the shape of a document
assembled by appending linewise pieces that each end in a newline. -/
def joinTermNl (ls : List Str) : Str := ls.foldr (fun l acc => l ++ '\n' :: acc) []

/-- JS String.prototype.includes: needle occurs contiguously in hay. -/
def containsSub (hay needle : Str) : Bool :=
  needle.isPrefixOf hay ||
    match hay with
    | [] => false
    | _ :: t => containsSub t needle

/-- Worker of collapseWsWith: afterWs records whether the previous
character was whitespace (the replacement for the current run has then
already been emitted). -/
def collapseWsAux (rep : Char) (afterWs : Bool) : Str → Str
  | [] => []
  | c :: cs =>
    if isWs c then (if afterWs then [] else [rep]) ++ collapseWsAux rep true cs
    else c :: collapseWsAux rep false cs

/-- Replace every maximal whitespace run by a single replacement
character: the regex replace of \s+ (global) by a one-character string. -/
def collapseWsWith (rep : Char) (x : Str) : Str := collapseWsAux rep false x

/-- Lookup in a JS object modelled as an insertion-ordered association
list (prototype-chain lookups are out of scope of this model). -/
def objGet {α : Type} (m : List (Str × α)) (k : Str) : Option α :=
  (m.find? (fun e => e.1 == k)).map (·.2)

/-- Property assignment on a JS object: an existing key keeps its
position and gets the new value, a new key is appended. -/
def objSet {α : Type} (m : List (Str × α)) (k : Str) (v : α) : List (Str × α) :=
  if m.any (fun e => e.1 == k) then m.map (fun e => if e.1 == k then (k, v) else e)
  else m ++ [(k, v)]

/-- One entry of the static GDD_SECTIONS registry of src/app.js. -/
structure GddSection where
  id : Str
  title : Str
  icon : Str
  descr : Str
  promptText : Str
deriving DecidableEq, Repr

/-- The fixed 10-entry section registry GDD_SECTIONS of src/app.js. -/
def GDD_SECTIONS : List GddSection :=
  [ { id := strL ("overview"), title := strL ("Game Overview"), icon := strL ("fa-gamepad"),
      descr := strL ("General concept and vision of the game"),
      promptText := strL ("Game overview, concept, genre, target audience, and unique selling points") },
    { id := strL ("gameplay"), title := strL ("Gameplay Mechanics"), icon := strL ("fa-cogs"),
      descr := strL ("Core game mechanics and systems"),
      promptText := strL ("Core gameplay loop, controls, mechanics, and game systems") },
    { id := strL ("story"), title := strL ("Story & Narrative"), icon := strL ("fa-book"),
      descr := strL ("Game story and narrative structure"),
      promptText := strL ("Main story, narrative summary, story structure, and themes") },
    { id := strL ("characters"), title := strL ("Characters"), icon := strL ("fa-users"),
      descr := strL ("Main and supporting characters"),
      promptText := strL ("Main character, supporting characters, enemies, and NPCs") },
    { id := strL ("world"), title := strL ("World & Level Design"), icon := strL ("fa-globe"),
      descr := strL ("Game world and level structure"),
      promptText := strL ("Game world, locations, level design, and environment") },
    { id := strL ("art"), title := strL ("Art Style"), icon := strL ("fa-palette"),
      descr := strL ("Art direction and visual design"),
      promptText := strL ("Art style, color palette, UI/UX design, and visual references") },
    { id := strL ("audio"), title := strL ("Sound Design"), icon := strL ("fa-volume-up"),
      descr := strL ("Music and sound effects"),
      promptText := strL ("Music style, sound effects, voice acting, and ambient sounds") },
    { id := strL ("technical"), title := strL ("Technical Requirements"), icon := strL ("fa-server"),
      descr := strL ("Technical specs and requirements"),
      promptText := strL ("Game engine, platform requirements, minimum/recommended system specs") },
    { id := strL ("monetization"), title := strL ("Monetization"), icon := strL ("fa-coins"),
      descr := strL ("Revenue model and pricing"),
      promptText := strL ("Revenue model, pricing, DLC plans, and in-app purchases") },
    { id := strL ("timeline"), title := strL ("Timeline"), icon := strL ("fa-calendar-alt"),
      descr := strL ("Development plan and milestones"),
      promptText := strL ("Development phases, milestones, and release date plan") } ]

/-- The ids of the registry sections. -/
def registryIds : List Str := GDD_SECTIONS.map (·.id)

/-- The project record held in state.currentProject. A project built by
createProject carries an id and a description; one built by the markdown
importer carries neither, so both fields are optional. -/
structure Project where
  id : Option Nat
  name : Str
  genre : Str
  platforms : List Str
  description : Option Str
  createdAt : Str
  updatedAt : Str
deriving DecidableEq, Repr

/-- One value of the state.gddData map. The markdown importer stores a
lastUpdated stamp next to the content; the other writers store only the
content. -/
structure SectionData where
  content : Str
  lastUpdated : Option Str
deriving DecidableEq, Repr

/-- The state.gddData map: section id to section data, insertion-ordered. -/
abbrev Gdd := List (Str × SectionData)

/-- One entry of state.diagramHistory. -/
structure Diagram where
  id : Nat
  dtype : Str
  label : Str
  code : Str
  createdAt : Str
deriving DecidableEq, Repr

/-- One entry of state.chatHistory. -/
structure ChatMsg where
  role : Str
  content : Str
deriving DecidableEq, Repr

/-- The mutable application state (the fields of the module-level state
object that the verified operations touch). -/
structure AppState where
  currentProject : Option Project
  gddData : Gdd
  chatHistory : List ChatMsg
  diagramHistory : List Diagram
  sectionPrompts : List (Str × Str)
deriving DecidableEq, Repr

/-- The external environment: the clock (Date.now, new Date()) and the
locale date renderer and parser, which live outside the program. -/
structure Env where
  nowIso : Str
  nowMs : Nat
  todayStr : Str
  fmtDate : Str → Str
  dateParse : Str → Option Str

/-- Label map of the DIAGRAM_TYPES table (only the label field is read
by the verified operations). -/
def DIAGRAM_TYPES : List (Str × Str) :=
  [ (strL ("gameloop"), strL ("Game Loop")),
    (strL ("mechanics"), strL ("Mechanic Relations")),
    (strL ("progression"), strL ("Progression System")),
    (strL ("ui-flow"), strL ("UI Flow")),
    (strL ("class-diagram"), strL ("Class Diagram")),
    (strL ("state-diagram"), strL ("State Diagram")),
    (strL ("er-diagram"), strL ("ER Diagram")),
    (strL ("sequence"), strL ("Sequence Diagram")),
    (strL ("mindmap"), strL ("Mind Map")),
    (strL ("timeline"), strL ("Timeline")),
    (strL ("custom"), strL ("Custom")) ]

/-- Characters removed by the emoji-stripping regex of
normalizeSectionTitle (the union of its six code-point ranges). -/
def isEmojiChar (c : Char) : Bool :=
  (0x1F600 ≤ c.toNat ∧ c.toNat ≤ 0x1F6FF) ||
  (0x1F900 ≤ c.toNat ∧ c.toNat ≤ 0x1F9FF) ||
  (0x2600 ≤ c.toNat ∧ c.toNat ≤ 0x26FF) ||
  (0x2700 ≤ c.toNat ∧ c.toNat ≤ 0x27BF) ||
  (0xFE00 ≤ c.toNat ∧ c.toNat ≤ 0xFE0F) ||
  (0x1F000 ≤ c.toNat ∧ c.toNat ≤ 0x1FFFF)

/-- Characters kept by the second replace of normalizeSectionTitle:
lowercase ASCII letters, digits, whitespace and the ampersand. -/
def keepTitleChar (c : Char) : Bool :=
  (97 ≤ c.toNat ∧ c.toNat ≤ 122) || (48 ≤ c.toNat ∧ c.toNat ≤ 57) || isWs c || c = '&'

/-- normalizeSectionTitle of src/app.js: lowercase, strip emoji ranges,
keep only alphanumerics, whitespace and ampersand, collapse whitespace
runs to single spaces, trim. -/
def normalizeSectionTitle (t : Str) : Str :=
  trimJs (collapseWsWith ' ' (((t.map jsToLower).filter (fun c => !(isEmojiChar c))).filter keepTitleChar))

/-- The knownSectionTitles object built in parseMarkdownImport: the
normalized registry titles mapped to their section ids. -/
def knownSectionTitles : List (Str × Str) :=
  GDD_SECTIONS.foldl (fun m sec => objSet m (normalizeSectionTitle sec.title) sec.id) []

/-- The property key under which a prototype-chain section id is stored:
the id value is the Object constructor function inherited from
Object.prototype, and every use of it either tests its truthiness (a
function is truthy) or uses it as a property name, where it coerces to
this string. -/
def protoConstructorKey : Str := strL ("function Object() \x7b [native code] \x7d")

/-- isGddSectionHeading of src/app.js. The source first tests the
truthiness of knownSectionTitles[normalized]; the known-title table is a
plain object literal, so an absent key falls through to Object.prototype,
and the only Object.prototype property whose name is writable in the
normalized alphabet (lowercase letters, digits, space, ampersand) is
constructor, whose value is the truthy Object constructor function. The
two residual loops iterate Object.entries (own keys only) and both test
plain equality of the normalized heading against each own key, adding
nothing beyond the own-key lookup. -/
def isGddSectionHeading (heading : Str) (known : List (Str × Str)) : Option Str :=
  match objGet known (normalizeSectionTitle heading) with
  | some id => some id
  | none =>
    if normalizeSectionTitle heading = strL ("constructor") then some protoConstructorKey
    else none

/-- fallbackSectionId of src/app.js: normalized heading with whitespace
runs replaced by hyphens, cut to 30 characters; a synthetic id when that
is empty. -/
def fallbackSectionId (env : Env) (heading : Str) : Str :=
  let x := (collapseWsWith '-' (normalizeSectionTitle heading)).take 30
  if x = [] then strL ("custom-") ++ (toString env.nowMs).data else x

/-- The pass-1 test of parseMarkdownImport on one line: a trimmed line
that starts with two hashes and a space (and not three hashes) whose
heading text names a registry section. Returns that section id. -/
def lineBoundaryId (line : Str) : Option Str :=
  if (strL ("## ")).isPrefixOf (trimJs line) && !((strL ("### ")).isPrefixOf (trimJs line)) then
    isGddSectionHeading (trimJs (trimLeftWs ((trimJs line).drop 2))) knownSectionTitles
  else none

/-- Pass 1 of parseMarkdownImport: the indexed list of matched level-2
boundaries, scanning the lines with a running index. -/
def scanBoundaries : List Str → Nat → List (Nat × Str)
  | [], _ => []
  | l :: ls, i =>
    match lineBoundaryId l with
    | some id => (i, id) :: scanBoundaries ls (i + 1)
    | none => scanBoundaries ls (i + 1)

/-- The end line of the slice belonging to a boundary: the index of the
next boundary, or the line count of the document for the last one. -/
def nextStop (lines : List Str) : List (Nat × Str) → Nat
  | [] => lines.length
  | (j, _) :: _ => j

/-- Pass 2 of parseMarkdownImport: for each boundary, the lines strictly
between it and the next boundary (or the end of the document) joined and
trimmed become that section id's content when non-empty. -/
def collectContents (env : Env) (lines : List Str) : List (Nat × Str) → Gdd → Gdd
  | [], m => m
  | (i, id) :: rest, m =>
    let stop := nextStop lines rest
    let content := trimJs (joinNl ((lines.drop (i + 1)).take (stop - (i + 1))))
    let m2 := if content = [] then m else objSet m id ({ content := content, lastUpdated := some env.nowIso })
    collectContents env lines rest m2

/-- The fallback pass of parseMarkdownImport (taken when pass 1 found no
boundary): split on level-1 headings, matched headings keep their
registry id, unmatched headings get a synthesized id. The loop state is
the current section id and the raw lines collected for it. -/
def fallbackScan (env : Env) : List Str → Option Str → List Str → Gdd → Gdd
  | [], currId, currContent, m =>
    match currId with
    | some id =>
      if currContent ≠ [] then
        objSet m id ({ content := trimJs (joinNl currContent), lastUpdated := some env.nowIso })
      else m
    | none => m
  | l :: ls, currId, currContent, m =>
    let t := trimJs l
    if (strL ("# ")).isPrefixOf t && !((strL ("## ")).isPrefixOf t) then
      let m2 := match currId with
        | some id => objSet m id ({ content := trimJs (joinNl currContent), lastUpdated := some env.nowIso })
        | none => m
      let heading := trimJs (trimLeftWs (t.drop 1))
      let newId := match isGddSectionHeading heading knownSectionTitles with
        | some sid => sid
        | none => fallbackSectionId env heading
      fallbackScan env ls (some newId) [] m2
    else
      match currId with
      | some _ => fallbackScan env ls currId (currContent ++ [l]) m
      | none => fallbackScan env ls currId currContent m

/-- Match of the bold metadata-label regex (case-insensitive anchored
prefix, then optional whitespace, then at least one character): the
captured group. pre is the lowercased literal part of the pattern. -/
def matchBoldLabel (pre : Str) (line : Str) : Option Str :=
  if pre.isPrefixOf (line.map jsToLower) ∧ pre.length < line.length then
    let rest := line.drop pre.length
    let r2 := trimLeftWs rest
    some (if r2 = [] then rest.drop (rest.length - 1) else r2)
  else none

/-- The platforms metadata line: the pattern allows Platform or
Platforms (the optional s is tried greedily first). -/
def matchPlatforms (line : Str) : Option Str :=
  match matchBoldLabel (strL ("**platforms:**")) line with
  | some r => some r
  | none => matchBoldLabel (strL ("**platform:**")) line

/-- The dash characters accepted between the project name and the
exported document suffix: hyphen-minus, en dash, em dash. -/
def isNameDash (c : Char) : Bool := c = '-' || c = '–' || c = '—'

/-- Strip of a trailing " - Game Design Document" (case-insensitive,
any of the three dashes, optional whitespace around the dash) from the
imported project name. -/
def stripGddSuffix (x : Str) : Str :=
  let r := x.reverse
  if (r.take 20).map jsToLower = (strL ("game design document")).reverse then
    let r2 := (r.drop 20).dropWhile isWs
    match r2 with
    | [] => x
    | d :: r3 => if isNameDash d then ((r3.dropWhile isWs).reverse) else x
  else x

/-- The result record of the three import format normalizers. Only the
JSON normalizer can carry section prompts, diagram history and chat
history; the markdown normalizer returns project and gdd alone. -/
structure ImportResult where
  project : Project
  gdd : Gdd
  sectionPrompts : Option (List (Str × Str))
  diagramHistory : Option (List Diagram)
  chatHistory : Option (List ChatMsg)

/-- parseMarkdownImport of src/app.js. The first level-1 heading of the
first 10 lines names the project (with the exported suffix stripped);
bold metadata labels in the first 20 lines set createdAt, genre and
platforms (the last match of each wins, a failed date parse keeps the
previous value); pass 1 and 2 collect the level-2 registry sections and
an empty pass 1 falls back to the level-1 split. -/
def parseMarkdownImport (env : Env) (mdContent : Str) : ImportResult :=
  let lines := splitNl mdContent
  let projectName :=
    match (lines.take 10).find? (fun l =>
      let t := trimJs l
      (strL ("# ")).isPrefixOf t && !((strL ("## ")).isPrefixOf t)) with
    | some l => trimJs (stripGddSuffix (trimJs (trimLeftWs ((trimJs l).drop 1))))
    | none => strL ("Imported Project")
  let meta := (lines.take 20).map trimJs
  let createdAt := (meta.filterMap (matchBoldLabel (strL ("**created:**")))).foldl
    (fun acc v => match env.dateParse v with | some iso => iso | none => acc) env.nowIso
  let genre := (meta.filterMap (matchBoldLabel (strL ("**genre:**")))).foldl
    (fun _ v => trimJs v) []
  let platforms := (meta.filterMap matchPlatforms).foldl
    (fun _ v => (splitOnChar ',' v).map trimJs) []
  let bs := scanBoundaries lines 0
  let gdd := if bs = [] then fallbackScan env lines none [] []
             else collectContents env lines bs []
  { project :=
      { id := none, name := projectName,
        genre := if genre = [] then strL ("Unknown") else genre,
        platforms := if platforms = [] then [strL ("PC")] else platforms,
        description := none, createdAt := createdAt, updatedAt := env.nowIso },
    gdd := gdd, sectionPrompts := none, diagramHistory := none, chatHistory := none }

/-- The placeholder paragraph the markdown export writes for a section
with no content. -/
def gddPlaceholder : Str := strL ("*This section has not been created yet.*")

/-- generateMarkdownExport of src/app.js: title line with the exported
suffix, four metadata lines, a rule, then every registry section as a
level-2 heading followed by its content or the placeholder. -/
def generateMarkdownExport (env : Env) (p : Project) (gdd : Gdd) : Str :=
  strL ("# ") ++ p.name ++ strL (" - Game Design Document\n\n")
  ++ strL ("**Created:** ") ++ env.fmtDate p.createdAt ++ strL ("\n")
  ++ strL ("**Last Updated:** ") ++ env.fmtDate p.updatedAt ++ strL ("\n")
  ++ strL ("**Genre:** ") ++ p.genre ++ strL ("\n")
  ++ strL ("**Platforms:** ") ++ joinSep (strL (", ")) p.platforms ++ strL ("\n\n")
  ++ strL ("---\n\n")
  ++ GDD_SECTIONS.foldl (fun md sec =>
      md ++ strL ("## ") ++ sec.title ++ strL ("\n\n")
      ++ (match objGet gdd sec.id with
          | some d => if d.content ≠ [] then d.content ++ strL ("\n\n") else gddPlaceholder ++ strL ("\n\n")
          | none => gddPlaceholder ++ strL ("\n\n"))) []

/-- JSON values, as produced by JSON.parse (numbers as integers; only
integral truthiness is exercised here). -/
inductive Json where
  | jnull : Json
  | jbool : Bool → Json
  | jnum : Int → Json
  | jstr : Str → Json
  | jarr : List Json → Json
  | jobj : List (Str × Json) → Json

/-- Field access on a parsed JSON value: absent on non-objects. -/
def jsonField (j : Json) (k : Str) : Option Json :=
  match j with
  | Json.jobj fields => objGet fields k
  | _ => none

/-- JS truthiness of a possibly-absent JSON value. -/
def jsTruthy : Option Json → Bool
  | none => false
  | some Json.jnull => false
  | some (Json.jbool b) => b
  | some (Json.jnum n) => !(n = 0)
  | some (Json.jstr s) => !(s = [])
  | some (Json.jarr _) => true
  | some (Json.jobj _) => true

/-- parseJSONImport of src/app.js: the parsed value is returned as-is
unless the project field or the gdd field is absent or falsy, in which
case the import reports invalid and returns null. -/
def parseJSONImport (j : Json) : Option Json :=
  if jsTruthy (jsonField j (strL ("project"))) && jsTruthy (jsonField j (strL ("gdd"))) then some j
  else none

/-- First-occurrence deduplication, as the spread of a JS Set. -/
def dedupKeepFirst (xs : List Str) : List Str :=
  xs.foldl (fun acc g => if acc.contains g then acc else acc ++ [g]) []

/-- createProject of src/app.js over the form inputs: trimmed name and
description, selected plus custom genre tags, checked platforms. An
empty trimmed name aborts without touching the state; otherwise the
project is replaced and gddData is reset to a prefilled overview
section. -/
def createProject (env : Env) (rawName rawDesc : Str) (genres : List Str)
    (platforms : List Str) (st : AppState) : AppState :=
  let name := trimJs rawName
  let desc := trimJs rawDesc
  let allGenres := dedupKeepFirst genres
  let genre := if allGenres = [] then strL ("Unspecified") else joinSep (strL (", ")) allGenres
  if name = [] then st
  else
    { st with
      currentProject := some (
        { id := some env.nowMs, name := name, genre := genre, platforms := platforms,
          description := some desc, createdAt := env.nowIso, updatedAt := env.nowIso } : Project),
      gddData := [ (strL ("overview"),
        { content := strL ("# ") ++ name ++ strL ("\n\n**Genre:** ") ++ genre
            ++ strL ("\n**Platforms:** ") ++ joinSep (strL (", ")) platforms
            ++ strL ("\n\n") ++ desc,
          lastUpdated := none }) ] }

/-- saveSection of src/app.js: the editor value is written to the
section id unconditionally (the UI only opens an editor for registry
sections; the function itself does not check the id). -/
def saveSection (env : Env) (st : AppState) (sectionId : Str) (editorValue : Str) : AppState :=
  { st with
    gddData := objSet st.gddData sectionId ({ content := editorValue, lastUpdated := none }),
    currentProject := st.currentProject.map (fun p => { p with updatedAt := env.nowIso }) }

/-- Interpolation of a possibly-undefined JS string value into a
template literal. -/
def optStr : Option Str → Str
  | some x => x
  | none => strL ("undefined")

/-- The context block of generateSection (project metadata and the two
dates). -/
def sectionFillContext (env : Env) (p : Project) : Str :=
  strL ("\nGame Name: ") ++ p.name
  ++ strL ("\nGenre: ") ++ p.genre
  ++ strL ("\nPlatforms: ") ++ joinSep (strL (", ")) p.platforms
  ++ strL ("\nDescription: ") ++ optStr p.description
  ++ strL ("\nProject Created: ") ++ env.fmtDate p.createdAt
  ++ strL ("\nToday\x27s Date: ") ++ env.todayStr
  ++ strL ("\n")

/-- The update-mode prompt of generateSection: the full existing content
between rules, the custom instruction, and the preservation rules. -/
def updatePrompt (env : Env) (ctx : Str) (title existingContent customPrompt : Str)
    (sectionId : Str) : Str :=
  strL ("\n") ++ ctx
  ++ strL ("\n\nHere is the CURRENT content of the \"") ++ title
  ++ strL ("\" section:\n\n---\n") ++ existingContent
  ++ strL ("\n---\n\nThe user wants to MODIFY/UPDATE this section with the following instructions:\n")
  ++ customPrompt
  ++ strL ("\n\nIMPORTANT RULES:\n- Keep the existing content structure and information intact\n- Apply ONLY the changes the user requested\n- Do NOT remove or rewrite parts that the user didn\x27t mention\n- Add new content where appropriate based on the user\x27s instructions\n- Maintain the same writing style and Markdown formatting\n- Return the COMPLETE updated section (not just the changes)\n")
  ++ (if sectionId = strL ("timeline") then
        strL ("- Today\x27s date is ") ++ env.todayStr
        ++ strL (". All dates must be realistic and in the future starting from today.")
      else [])
  ++ strL ("\n\nWrite in Markdown format with headings and subheadings.\n")

/-- The reference digest of the other sections used by the fresh-mode
prompt: every gddData entry that names a registry section, has content
and is not the target section contributes a titled 500-character clip. -/
def otherSectionsFor (gdd : Gdd) (sectionId : Str) : Str :=
  (gdd.filterMap (fun e =>
    match GDD_SECTIONS.find? (fun sec => sec.id == e.1) with
    | some sec =>
      if e.2.content ≠ [] ∧ ¬ (e.1 = sectionId) then
        some (strL ("\n### ") ++ sec.title ++ strL ("\n") ++ e.2.content.take 500)
      else none
    | none => none)).flatten

/-- The fresh-mode prompt of generateSection: context, the digest of the
other sections, the from-scratch instruction and the optional custom
instruction; the existing content of the target section is not used. -/
def freshPrompt (env : Env) (ctx : Str) (sec : GddSection) (sectionId : Str)
    (others : Str) (customPrompt : Str) : Str :=
  strL ("\n") ++ ctx ++ strL ("\n\n")
  ++ (if others ≠ [] then strL ("Other GDD sections for reference:\n") ++ others else [])
  ++ strL ("\n\nCreate the \"") ++ sec.title
  ++ strL ("\" section of the GDD from scratch. This is a FRESH generation â€” ignore any previous version of this section.\n\nThis section should include: ")
  ++ sec.promptText ++ strL ("\n")
  ++ (if sectionId = strL ("timeline") then
        strL ("\nIMPORTANT: Today\x27s date is ") ++ env.todayStr
        ++ strL (". All milestone and phase dates MUST be realistic future dates starting from today. Do NOT use past dates or placeholder years.")
      else [])
  ++ strL ("\n\n")
  ++ (if customPrompt ≠ [] then
        strL ("User\x27s custom instructions:\n") ++ customPrompt ++ strL ("\n")
      else [])
  ++ strL ("\n\nWrite in an organized way using Markdown format with headings and subheadings.\n")

/-- The prompt assembly of generateSection: none when the section id is
not in the registry or no project exists; otherwise the chosen sub-mode
(true = update) and the assembled prompt. The update sub-mode is taken
exactly when the trimmed existing content and the custom prompt are both
non-empty. -/
def sectionFillPrompt (env : Env) (st : AppState) (sectionId : Str) : Option (Bool × Str) :=
  match GDD_SECTIONS.find? (fun sec => sec.id == sectionId), st.currentProject with
  | some sec, some p =>
    let customPrompt := (objGet st.sectionPrompts sectionId).getD []
    let existingContent := trimJs (((objGet st.gddData sectionId).map (·.content)).getD [])
    let ctx := sectionFillContext env p
    if existingContent ≠ [] ∧ customPrompt ≠ [] then
      some (true, updatePrompt env ctx sec.title existingContent customPrompt sectionId)
    else
      some (false, freshPrompt env ctx sec sectionId (otherSectionsFor st.gddData sectionId) customPrompt)
  | _, _ => none

/-- The commit of generateSection: a non-null response replaces the
section content wholesale and bumps updatedAt; a null response or an
unknown section id or a missing project leaves the state unchanged. -/
def generateSectionCommit (env : Env) (st : AppState) (sectionId : Str)
    (response : Option Str) : AppState :=
  match GDD_SECTIONS.find? (fun sec => sec.id == sectionId), st.currentProject with
  | some _, some p =>
    match response with
    | some r =>
      let d : SectionData := { content := r, lastUpdated := none }
      let p2 : Project := { p with updatedAt := env.nowIso }
      { st with gddData := objSet st.gddData sectionId d, currentProject := some p2 }
    | none => st
  | _, _ => st

/-- Whether a section currently has non-empty (trimmed) content. -/
def sectionFilled (gdd : Gdd) (id : Str) : Bool :=
  !(trimJs (((objGet gdd id).map (·.content)).getD []) = [])

/-- The per-section keyword table of detectRelevantSections, in source
order (which is the registry order). The non-ASCII characters are the
exact characters of the source file. -/
def sectionKeywords : List (Str × List Str) :=
  [ (strL ("overview"),
     [strL ("overview"), strL ("genel bakÄ±ÅŸ"), strL ("konsept"), strL ("concept"),
      strL ("vision"), strL ("vizyon"), strL ("game idea"), strL ("oyun fikri"),
      strL ("target audience"), strL ("hedef kitle"), strL ("unique selling"), strL ("genre"),
      strL ("tÃ¼r")]),
    (strL ("gameplay"),
     [strL ("gameplay"), strL ("mechanic"), strL ("mekanik"), strL ("kontrol"), strL ("control"),
      strL ("combat"), strL ("savaÅŸ"), strL ("dÃ¶vÃ¼ÅŸ"),
      strL ("game loop"), strL ("oynanÄ±ÅŸ"), strL ("system"), strL ("sistem"),
      strL ("ability"), strL ("yetenek"), strL ("skill"), strL ("beceri"), strL ("movement"),
      strL ("hareket")]),
    (strL ("story"),
     [strL ("story"), strL ("hikaye"), strL ("narrative"), strL ("anlatÄ±"), strL ("plot"),
      strL ("olay Ã¶rgÃ¼sÃ¼"), strL ("lore"), strL ("backstory"),
      strL ("quest"), strL ("gÃ¶rev"), strL ("dialog"), strL ("diyalog"), strL ("theme"),
      strL ("tema"), strL ("ending"), strL ("son"), strL ("senaryo"), strL ("scenario")]),
    (strL ("characters"),
     [strL ("character"), strL ("karakter"), strL ("protagonist"), strL ("antagonist"),
      strL ("dÃ¼ÅŸman"), strL ("enemy"), strL ("npc"), strL ("hero"),
      strL ("kahraman"), strL ("villain"), strL ("boss"), strL ("companion"), strL ("partner"),
      strL ("ally"), strL ("mÃ¼ttefik")]),
    (strL ("world"),
     [strL ("world"), strL ("dÃ¼nya"), strL ("level"), strL ("seviye"),
      strL ("bÃ¶lÃ¼m"), strL ("map"), strL ("harita"), strL ("environment"),
      strL ("ortam"), strL ("Ã§evre"), strL ("location"), strL ("lokasyon"),
      strL ("mekan"), strL ("biome"), strL ("terrain"), strL ("arazi"), strL ("zone")]),
    (strL ("art"),
     [strL ("art"), strL ("sanat"), strL ("visual"), strL ("gÃ¶rsel"), strL ("style"),
      strL ("stil"), strL ("ui"), strL ("ux"), strL ("design"), strL ("tasarÄ±m"),
      strL ("color"), strL ("renk"), strL ("palette"), strL ("palet"), strL ("aesthetic"),
      strL ("estetik"), strL ("arayÃ¼z"), strL ("interface"), strL ("animation"),
      strL ("animasyon")]),
    (strL ("audio"),
     [strL ("audio"), strL ("ses"), strL ("sound"), strL ("mÃ¼zik"), strL ("music"),
      strL ("sfx"), strL ("effect"), strL ("voice"), strL ("seslendirme"), strL ("ambient"),
      strL ("ortam sesi"), strL ("soundtrack")]),
    (strL ("technical"),
     [strL ("technical"), strL ("teknik"), strL ("engine"), strL ("motor"), strL ("platform"),
      strL ("requirement"), strL ("gereksinim"), strL ("performance"), strL ("performans"),
      strL ("optimization"), strL ("network"), strL ("aÄŸ"), strL ("multiplayer"),
      strL ("server"), strL ("sunucu"), strL ("spec"), strL ("hardware"),
      strL ("donanÄ±m")]),
    (strL ("monetization"),
     [strL ("monetiz"), strL ("gelir"), strL ("revenue"), strL ("price"), strL ("fiyat"),
      strL ("dlc"), strL ("microtransaction"), strL ("in-app"), strL ("Ã¼cret"),
      strL ("business"), strL ("iÅŸ modeli"), strL ("free-to-play"), strL ("premium"),
      strL ("subscription"), strL ("abonelik"), strL ("store"), strL ("maÄŸaza")]),
    (strL ("timeline"),
     [strL ("timeline"), strL ("zaman"), strL ("schedule"), strL ("takvim"), strL ("milestone"),
      strL ("roadmap"), strL ("yol haritasÄ±"), strL ("deadline"), strL ("sprint"),
      strL ("phase"), strL ("aÅŸama"), strL ("release"), strL ("yayÄ±n"),
      strL ("launch"), strL ("Ã§Ä±kÄ±ÅŸ")]) ]

/-- The broad-question keyword set of detectRelevantSections. -/
def broadKeywords : List Str :=
  [strL ("tÃ¼m"), strL ("bÃ¼tÃ¼n"), strL ("hepsi"), strL ("genel"),
   strL ("dokuman"), strL ("document"), strL ("entire"), strL ("all section"), strL ("whole"),
   strL ("everything"), strL ("review"), strL ("incele"), strL ("Ã¶zet"),
   strL ("summary"), strL ("eksik"), strL ("missing"), strL ("gap")]

/-- The score of one section: the number of its keywords contained in
the lowercased message (each keyword counts at most once). -/
def keywordScore (lower : Str) (kws : List Str) : Nat :=
  (kws.filter (fun kw => containsSub lower kw)).length

/-- Stable insertion of one scored section into a list sorted by
descending score: earlier elements with the same score stay in front.
This is the result of the stable JS Array sort with the comparator on
scores. -/
def insertScoreDesc (x : Str × Nat) : List (Str × Nat) → List (Str × Nat)
  | [] => [x]
  | y :: ys => if x.2 < y.2 then y :: insertScoreDesc x ys else x :: y :: ys

/-- Stable sort by descending score (the JS Array sort is stable). -/
def sortScoreDesc (l : List (Str × Nat)) : List (Str × Nat) := l.foldr insertScoreDesc []

/-- detectRelevantSections of src/app.js: a broad-question keyword in
the lowercased message short-circuits to every currently filled section
in registry order; otherwise the positively scored sections sorted by
descending score, ties keeping the table order. -/
def detectRelevantSections (gdd : Gdd) (message : Str) : List Str :=
  let lower := message.map jsToLower
  if broadKeywords.any (fun kw => containsSub lower kw) then
    (GDD_SECTIONS.filter (fun sec => sectionFilled gdd sec.id)).map (·.id)
  else
    let scores := sectionKeywords.filterMap (fun e =>
      if keywordScore lower e.2 > 0 then some (e.1, keywordScore lower e.2) else none)
    (sortScoreDesc scores).map (·.1)

/-- saveDiagram of src/app.js: empty trimmed code aborts; otherwise the
new entry is prepended and, past 20 entries, the last (oldest) entry is
popped. -/
def saveDiagramOp (env : Env) (st : AppState) (dtype rawCode : Str) : AppState :=
  let code := trimJs rawCode
  if code = [] then st
  else
    let d : Diagram :=
      { id := env.nowMs, dtype := dtype,
        label := (objGet DIAGRAM_TYPES dtype).getD (strL ("Custom")),
        code := code, createdAt := env.nowIso }
    let h := d :: st.diagramHistory
    { st with diagramHistory := if h.length > 20 then h.dropLast else h }

/-- The application step of importProjectFile after a normalizer
succeeded: project, gdd and (when the parsed record carries them)
section prompts, diagram history and chat history are replaced
wholesale, then updatedAt is bumped. No bound is enforced on the
imported diagram history. -/
def applyImport (env : Env) (st : AppState) (r : ImportResult) : AppState :=
  let p2 : Project := { r.project with updatedAt := env.nowIso }
  { st with
    currentProject := some p2,
    gddData := r.gdd,
    sectionPrompts := r.sectionPrompts.getD st.sectionPrompts,
    diagramHistory := r.diagramHistory.getD st.diagramHistory,
    chatHistory := r.chatHistory.getD st.chatHistory }

/-- The content string the markdown export writes for one registry
section: the stored content when present and non-empty, the placeholder
otherwise. -/
def exportContent (gdd : Gdd) (sec : GddSection) : Str :=
  match objGet gdd sec.id with
  | some d => if d.content ≠ [] then d.content else gddPlaceholder
  | none => gddPlaceholder

/-- The header lines of the markdown export. -/
def exportHeaderLines (env : Env) (p : Project) : List Str :=
  [ strL ("# ") ++ p.name ++ strL (" - Game Design Document"), [],
    strL ("**Created:** ") ++ env.fmtDate p.createdAt,
    strL ("**Last Updated:** ") ++ env.fmtDate p.updatedAt,
    strL ("**Genre:** ") ++ p.genre,
    strL ("**Platforms:** ") ++ joinSep (strL (", ")) p.platforms, [],
    strL ("---"), [] ]

/-- The lines of one exported section block: the level-2 heading, a
blank line, the content lines, a blank line. -/
def sectionBlockLines (sec : GddSection) (c : Str) : List Str :=
  (strL ("## ") ++ sec.title) :: [] :: (splitNl c ++ [[]])

/-- The line decomposition of the markdown export. -/
def exportLines (env : Env) (p : Project) (gdd : Gdd) : List Str :=
  exportHeaderLines env p
    ++ (GDD_SECTIONS.map (fun sec => sectionBlockLines sec (exportContent gdd sec))).flatten

/-- One boundary segment of a document: the boundary line, the id it
matches, and the body lines up to the next boundary. -/
def segLines (segs : List (Str × Str × List Str)) : List Str :=
  (segs.map (fun s => s.1 :: s.2.2)).flatten

/-- Attach trailing lines to the body of the last segment. -/
def withTrail (trail : List Str) : List (Str × Str × List Str) → List (Str × Str × List Str)
  | [] => []
  | [s] => [(s.1, s.2.1, s.2.2 ++ trail)]
  | s :: s2 :: rest => s :: withTrail trail (s2 :: rest)

/-- The pass-2 commit for one segment: the joined trimmed body becomes
the content of the segment id when non-empty. -/
def segStep (env : Env) (m : Gdd) (s : Str × Str × List Str) : Gdd :=
  let content := trimJs (joinNl s.2.2)
  if content = [] then m else objSet m s.2.1 ({ content := content, lastUpdated := some env.nowIso })

/-- Well-formedness of one stored section content for the round trip:
non-empty, trim-invariant, and no line of it is a section boundary. -/
def contentRoundTripSafe (c : Str) : Prop :=
  c ≠ [] ∧ trimJs c = c ∧ ∀ l ∈ splitNl c, lineBoundaryId l = none

instance contentRoundTripSafeDec (c : Str) : Decidable (contentRoundTripSafe c) :=
  decidable_of_iff (c ≠ [] ∧ trimJs c = c ∧ ∀ l ∈ splitNl c, lineBoundaryId l = none) Iff.rfl

/-- A concrete environment for the concrete evaluations: a fixed clock
and a fixed locale date rendering. -/
def testEnv : Env :=
  { nowIso := strL ("2026-01-01T00:00:00.000Z"), nowMs := 1000,
    todayStr := strL ("January 1, 2026"),
    fmtDate := fun _ => strL ("January 1, 2026"),
    dateParse := fun _ => none }

/-- The initial application state before any project exists. -/
def emptyState : AppState :=
  { currentProject := none, gddData := [], chatHistory := [],
    diagramHistory := [], sectionPrompts := [] }

/-- A concrete project for the concrete evaluations. -/
def fixtureProject : Project :=
  { id := some 5, name := strL ("Nebula Run"), genre := strL ("Action"),
    platforms := [strL ("PC")], description := some (strL ("A fast race through a nebula")),
    createdAt := strL ("2026-01-01T00:00:00.000Z"), updatedAt := strL ("2026-01-01T00:00:00.000Z") }

/-- A concrete gddData map with two filled sections. -/
def fixtureGdd : Gdd :=
  [ (strL ("overview"), { content := strL ("A racing game."), lastUpdated := none }),
    (strL ("gameplay"), { content := strL ("Drive fast.\n\nAvoid rocks."), lastUpdated := none }) ]

/-- A concrete gddData map in which every registry section is filled. -/
def fixtureFullGdd : Gdd :=
  GDD_SECTIONS.map (fun sec => (sec.id,
    ({ content := strL ("Content of ") ++ sec.id, lastUpdated := none } : SectionData)))

/-- A concrete application state around fixtureProject and fixtureGdd. -/
def fixtureState : AppState :=
  { currentProject := some fixtureProject, gddData := fixtureGdd, chatHistory := [],
    diagramHistory := [], sectionPrompts := [(strL ("overview"), strL ("add a boost meter"))] }

/-- A 21-entry diagram list, longer than the documented bound. -/
def diagrams21 : List Diagram :=
  (List.range 21).map (fun i =>
    ({ id := i, dtype := strL ("custom"), label := strL ("Custom"),
       code := strL ("graph TD"), createdAt := strL ("t") } : Diagram))

/-- An import result (as the JSON normalizer would pass it through)
carrying 21 saved diagrams. -/
def importResult21 : ImportResult :=
  { project := fixtureProject, gdd := [], sectionPrompts := none,
    diagramHistory := some diagrams21, chatHistory := none }

/-- A parsed JSON snapshot whose project field is present and truthy but
whose gdd field is absent. -/
def cexJsonProjectOnly : Json :=
  Json.jobj [(strL ("project"), Json.jobj [(strL ("name"), Json.jstr (strL ("X")))])]

/-- A 20-entry diagram list in newest-first order (decreasing ids). -/
def diagrams20 : List Diagram :=
  (List.range 20).map (fun i =>
    ({ id := 20 - i, dtype := strL ("custom"), label := strL ("Custom"),
       code := strL ("graph TD"), createdAt := strL ("t") } : Diagram))

/-- A state holding exactly 20 saved diagrams. -/
def state20 : AppState :=
  { currentProject := some fixtureProject, gddData := fixtureGdd, chatHistory := [],
    diagramHistory := diagrams20, sectionPrompts := [] }

/-- The score the detector assigns to a section id (0 when the id is
not in the keyword table). -/
def sectionScore (lower : Str) (id : Str) : Nat :=
  ((sectionKeywords.find? (fun e => e.1 == id)).map (fun e => keywordScore lower e.2)).getD 0

/-- Position of a section id in the registry order. -/
def regIndex (id : Str) : Nat := registryIds.findIdx (fun x => x == id)

/-! ## Generic lemmas about the object model -/

theorem find?_key_of_map_update {α : Type} (m : List (Str × α)) (kk k : Str) (v : α)
    (hne : k ≠ kk) :
    (m.map (fun e => if e.1 == kk then (kk, v) else e)).find? (fun e => e.1 == k)
      = m.find? (fun e => e.1 == k) := by
  induction m with
  | nil => rfl
  | cons e rest ih =>
    rw [List.map_cons]
    by_cases h : (e.1 == kk) = true
    · have he : e.1 = kk := eq_of_beq h
      have h1 : ((kk, v).1 == k) = false := by
        simp only [beq_eq_false_iff_ne, ne_eq]
        intro hcon; exact hne hcon.symm
      have h2 : (e.1 == k) = false := by
        simp only [beq_eq_false_iff_ne, ne_eq, he]
        intro hcon; exact hne hcon.symm
      rw [if_pos h, List.find?_cons_of_neg _ (by simp [h1]),
        List.find?_cons_of_neg _ (by simp [h2]), ih]
    · rw [if_neg h]
      cases hek : (e.1 == k) with
      | false =>
        rw [List.find?_cons_of_neg _ (by simp [hek]),
          List.find?_cons_of_neg _ (by simp [hek]), ih]
      | true =>
        rw [List.find?_cons_of_pos (p := fun x : Str × α => x.1 == k) _ hek,
          List.find?_cons_of_pos (p := fun x : Str × α => x.1 == k) _ hek]

theorem find?_key_of_map_update_self {α : Type} (m : List (Str × α)) (kk : Str) (v : α)
    (hmem : m.any (fun e => e.1 == kk) = true) :
    (m.map (fun e => if e.1 == kk then (kk, v) else e)).find? (fun e => e.1 == kk)
      = some (kk, v) := by
  induction m with
  | nil => simp at hmem
  | cons e rest ih =>
    rw [List.map_cons]
    by_cases h : (e.1 == kk) = true
    · rw [if_pos h, List.find?_cons_of_pos _ (by simp)]
    · simp only [List.any_cons, Bool.or_eq_true] at hmem
      rcases hmem with h1 | h2
      · exact absurd h1 h
      · rw [if_neg h, List.find?_cons_of_neg _ (by simp [h]), ih h2]

/-- Lookup after assignment: the assigned key reads the new value, every
other key is unaffected. -/
theorem objGet_objSet {α : Type} (m : List (Str × α)) (kk k : Str) (v : α) :
    objGet (objSet m kk v) k = if k = kk then some v else objGet m k := by
  unfold objSet objGet
  by_cases hmem : m.any (fun e => e.1 == kk) = true
  · simp only [hmem, if_true]
    by_cases hk : k = kk
    · subst hk
      rw [find?_key_of_map_update_self m k v hmem]
      simp
    · rw [find?_key_of_map_update m kk k v hk]
      simp [hk]
  · have hm : (m.any fun e => e.1 == kk) = false := by
      cases hx : m.any fun e => e.1 == kk
      · rfl
      · exact absurd hx hmem
    simp only [hm, Bool.false_eq_true, if_false]
    by_cases hk : k = kk
    · subst hk
      have hfail : m.find? (fun e => e.1 == k) = none := by
        rw [List.find?_eq_none]
        intro x hx hpx
        exact hmem (List.any_eq_true.mpr ⟨x, hx, hpx⟩)
      rw [List.find?_append, hfail]
      simp
    · by_cases hfind : m.find? (fun e => e.1 == k) = none
      · have : ((kk, v).1 == k) = false := by
          simp only [beq_eq_false_iff_ne, ne_eq]
          intro hcon; exact hk hcon.symm
        rw [List.find?_append, hfind]
        simp [List.find?_cons, this, hk]
      · obtain ⟨e, he⟩ := Option.ne_none_iff_exists'.mp hfind
        rw [List.find?_append, he]
        simp [hk]

/-! ## C2: structured-snapshot validation -/

/-- C2 (amended): for a parseable structured snapshot, the import
reports invalid (returns nothing) exactly when the project field or the
gdd field is absent or falsy; when both are present and truthy the
parsed value is returned unchanged (direct deserialization). -/
theorem json_import_validation (j : Json) :
    (parseJSONImport j = none ↔
      jsTruthy (jsonField j (strL ("project"))) = false ∨
      jsTruthy (jsonField j (strL ("gdd"))) = false) ∧
    ∀ r, parseJSONImport j = some r → r = j := by
  cases hp : jsTruthy (jsonField j (strL ("project"))) <;>
    cases hg : jsTruthy (jsonField j (strL ("gdd"))) <;>
      simp [parseJSONImport, hp, hg]

/-- C2 counterexample: a snapshot whose project field is present (and
truthy) but whose gdd field is absent is rejected by the import, against
the claim that an input with at least one of the two fields present is
not rejected. -/
theorem json_import_rejects_with_project_present :
    parseJSONImport cexJsonProjectOnly = none ∧
    (jsonField cexJsonProjectOnly (strL ("project"))).isSome = true := by
  exact ⟨rfl, rfl⟩

/-! ## C8: broad-question short-circuit of the relevance detector -/

/-- C8: a message containing a broad-question keyword makes the
relevance detector return exactly the currently filled section ids in
registry order, regardless of per-section keyword matches. -/
theorem broad_message_returns_filled_ids (gdd : Gdd) (message : Str)
    (h : broadKeywords.any (fun kw => containsSub (message.map jsToLower) kw) = true) :
    detectRelevantSections gdd message = registryIds.filter (fun id => sectionFilled gdd id) := by
  unfold detectRelevantSections registryIds
  rw [if_pos h, List.filter_map]
  rfl

/-- Witness for C8 at the concrete message "give me a summary" and the
two-section fixture document. -/
theorem broad_message_returns_filled_ids_witness :
    broadKeywords.any (fun kw => containsSub ((strL ("give me a summary")).map jsToLower) kw) = true ∧
    detectRelevantSections fixtureGdd (strL ("give me a summary"))
      = registryIds.filter (fun id => sectionFilled fixtureGdd id) :=
  ⟨by decide, broad_message_returns_filled_ids fixtureGdd _ (by decide)⟩

/-! ## C9: createProject contract -/

theorem objGet_singleton_self {α : Type} (k : Str) (v : α) :
    objGet [(k, v)] k = some v := by
  simp [objGet, List.find?_cons_of_pos]

theorem genre_platforms_block (x : Str) :
    strL ("\n\n**Genre:** ") ++ (strL ("Unspecified") ++ (strL ("\n**Platforms:** ")
      ++ (joinSep (strL (", ")) [strL ("PC")] ++ (strL ("\n\n") ++ x))))
    = strL ("\n\n**Genre:** Unspecified\n**Platforms:** PC\n\n") ++ x := by
  have h : strL ("\n\n**Genre:** ") ++ strL ("Unspecified") ++ strL ("\n**Platforms:** ")
      ++ joinSep (strL (", ")) [strL ("PC")] ++ strL ("\n\n")
      = strL ("\n\n**Genre:** Unspecified\n**Platforms:** PC\n\n") := by decide
  calc strL ("\n\n**Genre:** ") ++ (strL ("Unspecified") ++ (strL ("\n**Platforms:** ")
        ++ (joinSep (strL (", ")) [strL ("PC")] ++ (strL ("\n\n") ++ x))))
      = (strL ("\n\n**Genre:** ") ++ strL ("Unspecified") ++ strL ("\n**Platforms:** ")
        ++ joinSep (strL (", ")) [strL ("PC")] ++ strL ("\n\n")) ++ x := by
        simp [List.append_assoc]
    _ = strL ("\n\n**Genre:** Unspecified\n**Platforms:** PC\n\n") ++ x := by rw [h]

/-- C9: createProject aborts without touching the state when the
trimmed name is empty; called with a non-empty name, no genre tags and
platforms PC it produces a project with genre Unspecified and prefills
the overview section with the level-1 heading of the name, the genre
and platforms lines, and the entered description. -/
theorem create_project_contract :
    (∀ env rawName rawDesc genres platforms st, trimJs rawName = [] →
        createProject env rawName rawDesc genres platforms st = st) ∧
    (∀ env rawName rawDesc st, trimJs rawName ≠ [] →
        ∃ p, (createProject env rawName rawDesc [] [strL ("PC")] st).currentProject = some p ∧
          p.name = trimJs rawName ∧
          p.genre = strL ("Unspecified") ∧
          objGet (createProject env rawName rawDesc [] [strL ("PC")] st).gddData (strL ("overview"))
            = some (SectionData.mk
                (strL ("# ") ++ trimJs rawName
                  ++ strL ("\n\n**Genre:** Unspecified\n**Platforms:** PC\n\n")
                  ++ trimJs rawDesc)
                none)) := by
  constructor
  · intro env rawName rawDesc genres platforms st h
    simp [createProject, h]
  · intro env rawName rawDesc st h
    unfold createProject
    simp only [dedupKeepFirst, List.foldl_nil, reduceIte, if_neg h]
    refine ⟨_, rfl, rfl, rfl, ?_⟩
    rw [objGet_singleton_self]
    simp only [Option.some_inj, SectionData.mk.injEq, and_true]
    simp only [List.append_assoc]
    exact congrArg (fun y => strL ("# ") ++ (trimJs rawName ++ y))
      (genre_platforms_block (trimJs rawDesc))

/-- Witness for C9 at the concrete inputs of the spec scenario. -/
theorem create_project_contract_witness :
    trimJs (strL ("Nebula Run")) ≠ [] ∧
    (∃ p, (createProject testEnv (strL ("Nebula Run")) (strL ("A fast race"))
        [] [strL ("PC")] emptyState).currentProject = some p ∧
      p.name = trimJs (strL ("Nebula Run")) ∧
      p.genre = strL ("Unspecified") ∧
      objGet (createProject testEnv (strL ("Nebula Run")) (strL ("A fast race"))
          [] [strL ("PC")] emptyState).gddData (strL ("overview"))
        = some (SectionData.mk
            (strL ("# ") ++ trimJs (strL ("Nebula Run"))
              ++ strL ("\n\n**Genre:** Unspecified\n**Platforms:** PC\n\n")
              ++ trimJs (strL ("A fast race")))
            none)) :=
  ⟨by decide, create_project_contract.2 testEnv _ _ emptyState (by decide)⟩

/-! ## C10: markdown-import defaults -/

/-- C10: a headed-markdown import fills missing fields with fixed
defaults: no level-1 heading in the first 10 lines gives the name
Imported Project, no Genre label in the first 20 lines gives the genre
Unknown, no platforms label at all gives the platform list PC, and the
imported project carries no id and no description. -/
theorem markdown_import_defaults (env : Env) (md : Str) :
    ((∀ l ∈ (splitNl md).take 10,
        (((strL ("# ")).isPrefixOf (trimJs l)) && !((strL ("## ")).isPrefixOf (trimJs l))) = false) →
      (parseMarkdownImport env md).project.name = strL ("Imported Project")) ∧
    ((∀ l ∈ (splitNl md).take 20, matchBoldLabel (strL ("**genre:**")) (trimJs l) = none) →
      (parseMarkdownImport env md).project.genre = strL ("Unknown")) ∧
    ((∀ l ∈ splitNl md, matchPlatforms (trimJs l) = none) →
      (parseMarkdownImport env md).project.platforms = [strL ("PC")]) ∧
    (parseMarkdownImport env md).project.id = none ∧
    (parseMarkdownImport env md).project.description = none := by
  refine ⟨?_, ?_, ?_, rfl, rfl⟩
  · intro hno
    have hfind : ((splitNl md).take 10).find? (fun l =>
        let t := trimJs l
        (strL ("# ")).isPrefixOf t && !((strL ("## ")).isPrefixOf t)) = none := by
      rw [List.find?_eq_none]
      intro x hx
      have := hno x hx
      simp only [this, Bool.false_eq_true, not_false_eq_true]
    unfold parseMarkdownImport
    simp only [hfind]
  · intro hno
    have hnil : (((splitNl md).take 20).map trimJs).filterMap
        (matchBoldLabel (strL ("**genre:**"))) = [] := by
      rw [List.filterMap_eq_nil_iff]
      intro a ha
      obtain ⟨l, hl, rfl⟩ := List.mem_map.mp ha
      exact hno l hl
    unfold parseMarkdownImport
    simp only [hnil, List.foldl_nil, reduceIte]
  · intro hno
    have hnil : (((splitNl md).take 20).map trimJs).filterMap matchPlatforms = [] := by
      rw [List.filterMap_eq_nil_iff]
      intro a ha
      obtain ⟨l, hl, rfl⟩ := List.mem_map.mp ha
      exact hno l (List.mem_of_mem_take hl)
    unfold parseMarkdownImport
    simp only [hnil, List.foldl_nil, reduceIte]

/-- Witness for C10 at a concrete document with no heading and no
metadata lines. -/
theorem markdown_import_defaults_witness :
    (parseMarkdownImport testEnv (strL ("hello world"))).project.name = strL ("Imported Project") ∧
    (parseMarkdownImport testEnv (strL ("hello world"))).project.genre = strL ("Unknown") ∧
    (parseMarkdownImport testEnv (strL ("hello world"))).project.platforms = [strL ("PC")] ∧
    (parseMarkdownImport testEnv (strL ("hello world"))).project.id = none ∧
    (parseMarkdownImport testEnv (strL ("hello world"))).project.description = none := by
  have h := markdown_import_defaults testEnv (strL ("hello world"))
  exact ⟨h.1 (by decide), h.2.1 (by decide), h.2.2.1 (by decide), h.2.2.2⟩

/-! ## C4: saved-diagram bound -/

theorem getLast_min_of_desc (l : List Diagram)
    (hp : l.Pairwise (fun a b => b.id < a.id)) :
    ∀ ev ∈ l.getLast?, ∀ d ∈ l, ev.id ≤ d.id := by
  induction l with
  | nil => intro ev hev; simp at hev
  | cons x xs ih =>
    intro ev hev d hd
    rcases List.pairwise_cons.mp hp with ⟨hx, hxs⟩
    cases xs with
    | nil =>
      simp only [List.getLast?_singleton, Option.mem_def, Option.some_inj] at hev
      simp only [List.mem_singleton] at hd
      subst hev; subst hd; exact le_refl _
    | cons y ys =>
      rw [List.getLast?_cons_cons] at hev
      rcases List.mem_cons.mp hd with rfl | hd2
      · have hevmem : ev ∈ y :: ys := List.mem_of_mem_getLast? hev
        exact le_of_lt (hx ev hevmem)
      · exact ih hxs ev hev d hd2

/-- C4 (amended): saveDiagram preserves the 20-entry bound and, at a
full list, prepends the new entry and evicts the last one, which is the
entry with the smallest creation ordinal whenever the list is in
newest-first order; the import path, by contrast, copies a diagram list
verbatim and enforces no bound (see the counterexample). -/
theorem save_diagram_bound (env : Env) (st : AppState) (dtype rawCode : Str) :
    ((saveDiagramOp env st dtype rawCode).diagramHistory.length ≤ 20 ∨
      ¬ st.diagramHistory.length ≤ 20) ∧
    (trimJs rawCode ≠ [] → st.diagramHistory.length = 20 →
      (saveDiagramOp env st dtype rawCode).diagramHistory
        = (Diagram.mk env.nowMs dtype ((objGet DIAGRAM_TYPES dtype).getD (strL ("Custom")))
            (trimJs rawCode) env.nowIso) :: st.diagramHistory.dropLast) ∧
    (st.diagramHistory.Pairwise (fun a b => b.id < a.id) →
      ∀ ev ∈ st.diagramHistory.getLast?, ∀ d ∈ st.diagramHistory, ev.id ≤ d.id) := by
  refine ⟨?_, ?_, ?_⟩
  · by_cases hle : st.diagramHistory.length ≤ 20
    · left
      unfold saveDiagramOp
      by_cases hc : trimJs rawCode = []
      · simp only [hc, if_pos rfl]; exact hle
      · simp only [if_neg hc]
        split
        · simp only [List.length_dropLast, List.length_cons]
          omega
        · rename_i hnot
          simp only [gt_iff_lt, not_lt, List.length_cons] at hnot
          simpa using hnot
    · right; exact hle
  · intro hc h20
    unfold saveDiagramOp
    simp only [if_neg hc]
    have hne : st.diagramHistory ≠ [] := by
      intro hnil; rw [hnil] at h20; simp at h20
    split
    · exact List.dropLast_cons_of_ne_nil hne
    · rename_i hnot
      exfalso
      apply hnot
      simp [List.length_cons, h20]
  · intro hp
    exact getLast_min_of_desc st.diagramHistory hp

/-- C4 counterexample: applying an import whose parsed record carries 21
saved diagrams (as the structured-snapshot import does verbatim) yields
a state whose saved-diagram list has 21 entries, above the documented
bound of 20. -/
theorem import_exceeds_diagram_bound :
    (applyImport testEnv emptyState importResult21).diagramHistory.length = 21 ∧
    ¬ (applyImport testEnv emptyState importResult21).diagramHistory.length ≤ 20 := by
  constructor
  · rfl
  · intro h
    have : (applyImport testEnv emptyState importResult21).diagramHistory.length = 21 := rfl
    omega

/-- Witness for C4 at a concrete state holding exactly 20 diagrams. -/
theorem save_diagram_bound_witness :
    trimJs (strL ("graph TD")) ≠ [] ∧ state20.diagramHistory.length = 20 ∧
    (saveDiagramOp testEnv state20 (strL ("custom")) (strL ("graph TD"))).diagramHistory
      = (Diagram.mk testEnv.nowMs (strL ("custom"))
          ((objGet DIAGRAM_TYPES (strL ("custom"))).getD (strL ("Custom")))
          (trimJs (strL ("graph TD"))) testEnv.nowIso) :: state20.diagramHistory.dropLast :=
  ⟨by decide, by decide,
    (save_diagram_bound testEnv state20 (strL ("custom")) (strL ("graph TD"))).2.1
      (by decide) (by decide)⟩

/-! ## C6: heading normalization and boundary matching -/

theorem mem_of_objGet_eq_some {α : Type} (m : List (Str × α)) (k : Str) (v : α)
    (h : objGet m k = some v) : (k, v) ∈ m := by
  unfold objGet at h
  cases hf : m.find? (fun e => e.1 == k) with
  | none => rw [hf] at h; simp at h
  | some e =>
    rw [hf, Option.map_some'] at h
    have hm := List.mem_of_find?_eq_some hf
    have hp := List.find?_some hf
    rcases e with ⟨e1, e2⟩
    have h1 : e1 = k := eq_of_beq hp
    have h2 : e2 = v := by injection h
    subst h1; subst h2; exact hm

/-- C6 (amended): a level-2 heading is matched to a section id exactly
when its normalization (lowercase, emoji stripped, non-alphanumerics
other than space and ampersand stripped, whitespace collapsed) either
equals a normalized registry title, yielding that section's id, or
equals constructor, where the plain-object lookup finds the truthy
inherited Object.prototype.constructor and yields the prototype-chain
key; the heading line with the trailing emoji still maps to the
gameplay section. -/
theorem heading_boundary_match_or_prototype :
    (∀ heading id, isGddSectionHeading heading knownSectionTitles = some id ↔
      ((∃ sec ∈ GDD_SECTIONS, normalizeSectionTitle heading = normalizeSectionTitle sec.title ∧
          sec.id = id) ∨
        (normalizeSectionTitle heading = strL ("constructor") ∧ id = protoConstructorKey))) ∧
    lineBoundaryId (strL ("## Gameplay Mechanics 🎮")) = some (strL ("gameplay")) := by
  constructor
  · intro heading id
    constructor
    · intro h
      unfold isGddSectionHeading at h
      cases ho : objGet knownSectionTitles (normalizeSectionTitle heading) with
      | some v =>
        rw [ho] at h
        injection h with hv
        subst hv
        left
        have hmem := mem_of_objGet_eq_some _ _ _ ho
        have h10 : ∀ e ∈ knownSectionTitles, ∃ sec ∈ GDD_SECTIONS,
            e.1 = normalizeSectionTitle sec.title ∧ e.2 = sec.id := by decide
        obtain ⟨sec, hsec, h1, h2⟩ := h10 _ hmem
        exact ⟨sec, hsec, h1, h2.symm⟩
      | none =>
        rw [ho] at h
        have h2 : (if normalizeSectionTitle heading = strL ("constructor")
            then some protoConstructorKey else none) = some id := h
        by_cases hc : normalizeSectionTitle heading = strL ("constructor")
        · rw [if_pos hc] at h2
          injection h2 with hv
          exact Or.inr ⟨hc, hv.symm⟩
        · rw [if_neg hc] at h2
          exact absurd h2 (by simp)
    · rintro (⟨sec, hsec, hnorm, rfl⟩ | ⟨hc, rfl⟩)
      · have hcomplete : ∀ sec ∈ GDD_SECTIONS,
            objGet knownSectionTitles (normalizeSectionTitle sec.title) = some sec.id := by decide
        unfold isGddSectionHeading
        rw [hnorm, hcomplete sec hsec]
      · unfold isGddSectionHeading
        rw [hc]
        have hnone : objGet knownSectionTitles (strL ("constructor")) = none := by decide
        rw [hnone]
        decide
  · decide

/-- C6 counterexample: the heading Constructor normalizes to
constructor, which equals no normalized registry title, yet the line
becomes a section boundary because the plain-object lookup finds the
inherited Object.prototype.constructor, and the resulting boundary id is
not a registry id. -/
theorem constructor_heading_is_boundary :
    lineBoundaryId (strL ("## Constructor")) = some protoConstructorKey ∧
    normalizeSectionTitle (strL ("Constructor"))
      ∉ GDD_SECTIONS.map (fun sec => normalizeSectionTitle sec.title) ∧
    protoConstructorKey ∉ registryIds := by
  decide

/-! ## C3: registry closure of the write paths -/

theorem isGddSectionHeading_result (heading id : Str)
    (h : isGddSectionHeading heading knownSectionTitles = some id) :
    id ∈ registryIds ∨ id = protoConstructorKey := by
  unfold isGddSectionHeading at h
  cases ho : objGet knownSectionTitles (normalizeSectionTitle heading) with
  | some v =>
    rw [ho] at h
    injection h with hv
    subst hv
    left
    have hval : ∀ e ∈ knownSectionTitles, e.2 ∈ registryIds := by decide
    exact hval _ (mem_of_objGet_eq_some _ _ _ ho)
  | none =>
    rw [ho] at h
    have h2 : (if normalizeSectionTitle heading = strL ("constructor")
        then some protoConstructorKey else none) = some id := h
    by_cases hc : normalizeSectionTitle heading = strL ("constructor")
    · rw [if_pos hc] at h2
      injection h2 with hv
      exact Or.inr hv.symm
    · rw [if_neg hc] at h2
      exact absurd h2 (by simp)

theorem scanBoundaries_ids (lines : List Str) (i : Nat) :
    ∀ p ∈ scanBoundaries lines i, p.2 ∈ registryIds ∨ p.2 = protoConstructorKey := by
  induction lines generalizing i with
  | nil => intro p hp; simp [scanBoundaries] at hp
  | cons l ls ih =>
    intro p hp
    unfold scanBoundaries at hp
    cases hb : lineBoundaryId l with
    | none => rw [hb] at hp; exact ih (i + 1) p hp
    | some id =>
      rw [hb] at hp
      rcases List.mem_cons.mp hp with rfl | h2
      · unfold lineBoundaryId at hb
        split at hb
        · exact isGddSectionHeading_result _ _ hb
        · exact absurd hb (by simp)
      · exact ih (i + 1) p h2

theorem objGet_isSome_if_objSet {α : Type} (P : Prop) [Decidable P]
    (m : List (Str × α)) (id k : Str) (v : α)
    (h : (objGet (if P then m else objSet m id v) k).isSome = true) :
    (objGet m k).isSome = true ∨ k = id := by
  split at h
  · left; exact h
  · rw [objGet_objSet] at h
    by_cases hk : k = id
    · right; exact hk
    · left; rwa [if_neg hk] at h

theorem collectContents_keys (env : Env) (lines : List Str) (bs : List (Nat × Str)) :
    ∀ m k, (objGet (collectContents env lines bs m) k).isSome = true →
      (objGet m k).isSome = true ∨ ∃ i, (i, k) ∈ bs := by
  induction bs with
  | nil => intro m k h; left; simpa [collectContents] using h
  | cons b rest ih =>
    intro m k h
    rcases b with ⟨i, id⟩
    unfold collectContents at h
    rcases ih _ _ h with hm | ⟨j, hj⟩
    · rcases objGet_isSome_if_objSet _ _ _ _ _ hm with h1 | h2
      · left; exact h1
      · right; exact ⟨i, by rw [h2]; exact List.mem_cons_self _ _⟩
    · right; exact ⟨j, List.mem_cons_of_mem _ hj⟩

/-- C3 (amended): the generation commit rejects (leaves the state
unchanged for) every section id outside the registry, and every key
written by the level-2 boundary pass of the markdown import is either a
registry id or the stringified Object constructor that the plain
known-title object inherits through its prototype chain (hit by a
heading normalizing to constructor). No general registry closure holds:
the level-1 fallback pass synthesizes arbitrary ids, the boundary pass
can write the prototype-chain key, and the JSON import copies arbitrary
keys (see the counterexample). -/
theorem registry_closure_partial :
    (∀ env st id resp, id ∉ registryIds → generateSectionCommit env st id resp = st) ∧
    (∀ env md k, scanBoundaries (splitNl md) 0 ≠ [] →
      (objGet (parseMarkdownImport env md).gdd k).isSome = true →
        k ∈ registryIds ∨ k = protoConstructorKey) := by
  constructor
  · intro env st id resp h
    unfold generateSectionCommit
    have hfind : GDD_SECTIONS.find? (fun sec => sec.id == id) = none := by
      rw [List.find?_eq_none]
      intro sec hsec hpred
      apply h
      have hid : sec.id = id := eq_of_beq hpred
      rw [← hid]
      exact List.mem_map_of_mem _ hsec
    rw [hfind]
  · intro env md k hbs h
    have hg : (parseMarkdownImport env md).gdd
        = (if scanBoundaries (splitNl md) 0 = [] then fallbackScan env (splitNl md) none [] []
           else collectContents env (splitNl md) (scanBoundaries (splitNl md) 0) []) := rfl
    rw [hg, if_neg hbs] at h
    rcases collectContents_keys env (splitNl md) (scanBoundaries (splitNl md) 0) [] k h with hm | ⟨i, hi⟩
    · simp [objGet] at hm
    · exact scanBoundaries_ids (splitNl md) 0 (i, k) hi

/-- C3 counterexample: the import violates registry closure on two
paths. A document with no matching level-2 heading takes the fallback
pass, which stores content under the synthesized id custom-section; and
a document whose level-2 headings include Constructor stores content
under the stringified Object constructor found through the prototype
chain. Both keys are outside the 10-entry registry. -/
theorem import_writes_nonregistry_keys :
    ((objGet (parseMarkdownImport testEnv (strL ("# Custom Section\nhello"))).gdd
        (strL ("custom-section"))).isSome = true ∧
      strL ("custom-section") ∉ registryIds) ∧
    ((objGet (parseMarkdownImport testEnv
        (strL ("## Game Overview\nx\n## Constructor\nhello"))).gdd
        protoConstructorKey).isSome = true ∧
      protoConstructorKey ∉ registryIds) := by
  exact ⟨⟨rfl, by decide⟩, ⟨rfl, by decide⟩⟩

/-! ## C7: keyword scoring of the relevance detector -/

theorem mem_insertScoreDesc (x y : Str × Nat) (l : List (Str × Nat)) :
    y ∈ insertScoreDesc x l ↔ y = x ∨ y ∈ l := by
  induction l with
  | nil => simp [insertScoreDesc]
  | cons z zs ih =>
    unfold insertScoreDesc
    split
    · rw [List.mem_cons, ih, List.mem_cons]
      tauto
    · simp only [List.mem_cons]

theorem mem_sortScoreDesc (y : Str × Nat) (l : List (Str × Nat)) :
    y ∈ sortScoreDesc l ↔ y ∈ l := by
  induction l with
  | nil => simp [sortScoreDesc]
  | cons x xs ih =>
    have hstep : sortScoreDesc (x :: xs) = insertScoreDesc x (sortScoreDesc xs) := rfl
    rw [hstep, mem_insertScoreDesc, ih, List.mem_cons]

theorem pairwise_insertScoreDesc (R : Str × Nat → Str × Nat → Prop) (x : Str × Nat)
    (l : List (Str × Nat))
    (hl : l.Pairwise (fun a b => b.2 < a.2 ∨ (a.2 = b.2 ∧ R a b)))
    (hx : ∀ y ∈ l, R x y) :
    (insertScoreDesc x l).Pairwise (fun a b => b.2 < a.2 ∨ (a.2 = b.2 ∧ R a b)) := by
  induction l with
  | nil => simp [insertScoreDesc]
  | cons z zs ih =>
    rcases List.pairwise_cons.mp hl with ⟨hz, hzs⟩
    unfold insertScoreDesc
    split
    · rename_i hlt
      rw [List.pairwise_cons]
      constructor
      · intro w hw
        rcases (mem_insertScoreDesc x w zs).mp hw with rfl | hw2
        · left; exact hlt
        · exact hz w hw2
      · exact ih hzs (fun y hy => hx y (List.mem_cons_of_mem _ hy))
    · rename_i hge
      rw [List.pairwise_cons]
      constructor
      · intro w hw
        rcases List.mem_cons.mp hw with rfl | hw2
        · by_cases heq : w.2 < x.2
          · left; exact heq
          · right
            refine ⟨by omega, hx w (List.mem_cons_self _ _)⟩
        · have hwz : w.2 ≤ z.2 := by
            rcases hz w hw2 with h1 | ⟨h1, _⟩
            · omega
            · omega
          by_cases hlt2 : w.2 < x.2
          · left; exact hlt2
          · right
            refine ⟨by omega, hx w (List.mem_cons_of_mem _ hw2)⟩
      · exact hl

theorem pairwise_sortScoreDesc (R : Str × Nat → Str × Nat → Prop)
    (l : List (Str × Nat)) (hR : l.Pairwise R) :
    (sortScoreDesc l).Pairwise (fun a b => b.2 < a.2 ∨ (a.2 = b.2 ∧ R a b)) := by
  induction l with
  | nil => simp [sortScoreDesc]
  | cons x xs ih =>
    rcases List.pairwise_cons.mp hR with ⟨hx, hxs⟩
    have hstep : sortScoreDesc (x :: xs) = insertScoreDesc x (sortScoreDesc xs) := rfl
    rw [hstep]
    exact pairwise_insertScoreDesc R x (sortScoreDesc xs) (ih hxs)
      (fun y hy => hx y ((mem_sortScoreDesc y xs).mp hy))

theorem find?_key_self_of_nodup {α : Type} (l : List (Str × α))
    (hnd : (l.map (·.1)).Nodup) (a : Str × α) (ha : a ∈ l) :
    l.find? (fun e => e.1 == a.1) = some a := by
  induction l with
  | nil => simp at ha
  | cons b bs ih =>
    rw [List.map_cons, List.nodup_cons] at hnd
    rcases List.mem_cons.mp ha with rfl | ha2
    · exact List.find?_cons_of_pos _ (by simp)
    · have hb : (b.1 == a.1) = false := by
        rw [beq_eq_false_iff_ne]
        intro hcon
        apply hnd.1
        rw [hcon]
        exact List.mem_map_of_mem _ ha2
      rw [List.find?_cons_of_neg _ (by simp [hb])]
      exact ih hnd.2 ha2

theorem scores_elem_sectionScore (lower : Str) (p : Str × Nat)
    (hp : p ∈ sectionKeywords.filterMap (fun e =>
      if keywordScore lower e.2 > 0 then some (e.1, keywordScore lower e.2) else none)) :
    sectionScore lower p.1 = p.2 := by
  obtain ⟨a, ha, hfa⟩ := List.mem_filterMap.mp hp
  have hnd : (sectionKeywords.map (·.1)).Nodup := by decide
  split at hfa
  · have hpa : p = (a.1, keywordScore lower a.2) := by
      injection hfa with h
      exact h.symm
    subst hpa
    unfold sectionScore
    rw [find?_key_self_of_nodup sectionKeywords hnd a ha]
    rfl
  · exact absurd hfa (by simp)

/-- C7: with no broad-question keyword in the message, the relevance
detector returns exactly the sections with positive score (the number
of that section's keywords contained, case-insensitively, in the
message), sorted by strictly descending score with ties in registry
order, and the empty list when no keyword of any section occurs. -/
theorem detector_scored_ranking (gdd : Gdd) (message : Str)
    (hb : broadKeywords.any (fun kw => containsSub (message.map jsToLower) kw) = false) :
    (∀ id, id ∈ detectRelevantSections gdd message ↔
      ∃ e ∈ sectionKeywords, e.1 = id ∧ 0 < keywordScore (message.map jsToLower) e.2) ∧
    (detectRelevantSections gdd message).Pairwise (fun a b =>
      sectionScore (message.map jsToLower) b < sectionScore (message.map jsToLower) a ∨
      (sectionScore (message.map jsToLower) a = sectionScore (message.map jsToLower) b ∧
        regIndex a < regIndex b)) ∧
    ((∀ e ∈ sectionKeywords, keywordScore (message.map jsToLower) e.2 = 0) →
      detectRelevantSections gdd message = []) := by
  have hd : detectRelevantSections gdd message
      = (sortScoreDesc (sectionKeywords.filterMap (fun e =>
          if keywordScore (message.map jsToLower) e.2 > 0
          then some (e.1, keywordScore (message.map jsToLower) e.2) else none))).map (·.1) := by
    unfold detectRelevantSections
    simp only [hb, Bool.false_eq_true, if_false]
  refine ⟨?_, ?_, ?_⟩
  · intro id
    rw [hd, List.mem_map]
    constructor
    · rintro ⟨p, hp, rfl⟩
      have hp2 := (mem_sortScoreDesc p _).mp hp
      obtain ⟨a, ha, hfa⟩ := List.mem_filterMap.mp hp2
      split at hfa
      · rename_i hpos
        have hpa : p = (a.1, keywordScore (message.map jsToLower) a.2) := by
          injection hfa with h
          exact h.symm
        subst hpa
        exact ⟨a, ha, rfl, hpos⟩
      · exact absurd hfa (by simp)
    · rintro ⟨e, he, rfl, hpos⟩
      refine ⟨(e.1, keywordScore (message.map jsToLower) e.2), ?_, rfl⟩
      rw [mem_sortScoreDesc]
      exact List.mem_filterMap.mpr ⟨e, he, by rw [if_pos hpos]⟩
  · rw [hd, List.pairwise_map]
    have hRK : sectionKeywords.Pairwise
        (fun a b => regIndex a.1 < regIndex b.1) := by decide
    have hscores : (sectionKeywords.filterMap (fun e =>
        if keywordScore (message.map jsToLower) e.2 > 0
        then some (e.1, keywordScore (message.map jsToLower) e.2) else none)).Pairwise
        (fun a b => regIndex a.1 < regIndex b.1) := by
      rw [List.pairwise_filterMap]
      apply hRK.imp_of_mem
      intro a b _ _ hab
      intro x hx y hy
      have hx1 : x.1 = a.1 := by
        split at hx
        · simp only [Option.mem_def, Option.some_inj] at hx
          rw [← hx]
        · simp at hx
      have hy1 : y.1 = b.1 := by
        split at hy
        · simp only [Option.mem_def, Option.some_inj] at hy
          rw [← hy]
        · simp at hy
      rw [hx1, hy1]
      exact hab
    have hsorted := pairwise_sortScoreDesc _ _ hscores
    apply List.Pairwise.imp_of_mem _ hsorted
    intro p q hp hq hS
    have hps := scores_elem_sectionScore (message.map jsToLower) p ((mem_sortScoreDesc _ _).mp hp)
    have hqs := scores_elem_sectionScore (message.map jsToLower) q ((mem_sortScoreDesc _ _).mp hq)
    rcases hS with h1 | ⟨h1, h2⟩
    · left; rw [hps, hqs]; exact h1
    · right
      constructor
      · rw [hps, hqs]; exact h1
      · exact h2
  · intro hz
    rw [hd]
    have hnil : sectionKeywords.filterMap (fun e =>
        if keywordScore (message.map jsToLower) e.2 > 0
        then some (e.1, keywordScore (message.map jsToLower) e.2) else none) = [] := by
      rw [List.filterMap_eq_nil_iff]
      intro a ha
      simp [hz a ha]
    rw [hnil]
    rfl

/-- Witness for C7 at the concrete message "combat". -/
theorem detector_scored_ranking_witness :
    broadKeywords.any (fun kw => containsSub ((strL ("combat")).map jsToLower) kw) = false ∧
    (∀ id, id ∈ detectRelevantSections fixtureGdd (strL ("combat")) ↔
      ∃ e ∈ sectionKeywords, e.1 = id ∧
        0 < keywordScore ((strL ("combat")).map jsToLower) e.2) :=
  ⟨by decide, (detector_scored_ranking fixtureGdd (strL ("combat")) (by decide)).1⟩

/-! ## C5: section-fill sub-mode choice and context payload -/

theorem otherSections_filter_invariant (gdd : Gdd) (sectionId : Str) :
    otherSectionsFor gdd sectionId
      = otherSectionsFor (gdd.filter (fun e => !(e.1 == sectionId))) sectionId := by
  unfold otherSectionsFor
  congr 1
  induction gdd with
  | nil => rfl
  | cons e rest ih =>
    by_cases he : (e.1 == sectionId) = true
    · have h1 : e.1 = sectionId := eq_of_beq he
      rw [List.filter_cons, List.filterMap_cons]
      have hf : (match GDD_SECTIONS.find? (fun sec => sec.id == e.1) with
          | some sec =>
            if e.2.content ≠ [] ∧ ¬ (e.1 = sectionId) then
              some (strL ("\n### ") ++ sec.title ++ strL ("\n") ++ e.2.content.take 500)
            else none
          | none => none) = none := by
        cases GDD_SECTIONS.find? (fun sec => sec.id == e.1) with
        | none => rfl
        | some sec => simp [h1]
      rw [hf]
      simp only [he, Bool.not_true, Bool.false_eq_true, if_false]
      exact ih
    · rw [List.filter_cons, List.filterMap_cons]
      simp only [he, Bool.not_false, if_pos]
      rw [List.filterMap_cons]
      cases hfa : (match GDD_SECTIONS.find? (fun sec => sec.id == e.1) with
          | some sec =>
            if e.2.content ≠ [] ∧ ¬ (e.1 = sectionId) then
              some (strL ("\n### ") ++ sec.title ++ strL ("\n") ++ e.2.content.take 500)
            else none
          | none => none) with
      | none => rw [ih]
      | some b => rw [ih]

/-- C5: with a registry section and an existing project, the assembler
chooses the update sub-mode exactly when the trimmed existing content
and the custom instruction are both non-empty; the update prompt carries
the full existing content and the instruction verbatim; and with no
custom instruction the assembled (fresh) prompt does not depend on the
target section's own stored content. -/
theorem section_fill_mode_contract (env : Env) (st : AppState) (sectionId : Str)
    (sec : GddSection) (p : Project)
    (hfind : GDD_SECTIONS.find? (fun s2 => s2.id == sectionId) = some sec)
    (hp : st.currentProject = some p) :
    (∃ mode prompt, sectionFillPrompt env st sectionId = some (mode, prompt) ∧
      (mode = true ↔ trimJs (((objGet st.gddData sectionId).map (·.content)).getD []) ≠ [] ∧
        (objGet st.sectionPrompts sectionId).getD [] ≠ []) ∧
      (mode = true →
        (trimJs (((objGet st.gddData sectionId).map (·.content)).getD [])) <:+: prompt ∧
        ((objGet st.sectionPrompts sectionId).getD []) <:+: prompt)) ∧
    ((objGet st.sectionPrompts sectionId).getD [] = [] →
      ∀ st2 : AppState, st2.currentProject = st.currentProject →
        st2.sectionPrompts = st.sectionPrompts →
        st2.gddData.filter (fun e => !(e.1 == sectionId))
          = st.gddData.filter (fun e => !(e.1 == sectionId)) →
        sectionFillPrompt env st2 sectionId = sectionFillPrompt env st sectionId) := by
  have h1 : sectionFillPrompt env st sectionId
      = (if trimJs (((objGet st.gddData sectionId).map (·.content)).getD []) ≠ [] ∧
            (objGet st.sectionPrompts sectionId).getD [] ≠ [] then
          some (true, updatePrompt env (sectionFillContext env p) sec.title
            (trimJs (((objGet st.gddData sectionId).map (·.content)).getD []))
            ((objGet st.sectionPrompts sectionId).getD []) sectionId)
        else
          some (false, freshPrompt env (sectionFillContext env p) sec sectionId
            (otherSectionsFor st.gddData sectionId)
            ((objGet st.sectionPrompts sectionId).getD []))) := by
    unfold sectionFillPrompt
    rw [hfind, hp]
  constructor
  · by_cases hcond : trimJs (((objGet st.gddData sectionId).map (·.content)).getD []) ≠ [] ∧
        (objGet st.sectionPrompts sectionId).getD [] ≠ []
    · refine ⟨true, updatePrompt env (sectionFillContext env p) sec.title
        (trimJs (((objGet st.gddData sectionId).map (·.content)).getD []))
        ((objGet st.sectionPrompts sectionId).getD []) sectionId,
        by rw [h1, if_pos hcond], by simp [hcond], ?_⟩
      intro _
      constructor
      · refine ⟨strL ("\n") ++ sectionFillContext env p
          ++ strL ("\n\nHere is the CURRENT content of the \"") ++ sec.title
          ++ strL ("\" section:\n\n---\n"),
          strL ("\n---\n\nThe user wants to MODIFY/UPDATE this section with the following instructions:\n")
          ++ (objGet st.sectionPrompts sectionId).getD []
          ++ strL ("\n\nIMPORTANT RULES:\n- Keep the existing content structure and information intact\n- Apply ONLY the changes the user requested\n- Do NOT remove or rewrite parts that the user didn\x27t mention\n- Add new content where appropriate based on the user\x27s instructions\n- Maintain the same writing style and Markdown formatting\n- Return the COMPLETE updated section (not just the changes)\n")
          ++ (if sectionId = strL ("timeline") then
                strL ("- Today\x27s date is ") ++ env.todayStr
                ++ strL (". All dates must be realistic and in the future starting from today.")
              else [])
          ++ strL ("\n\nWrite in Markdown format with headings and subheadings.\n"), ?_⟩
        unfold updatePrompt
        simp [List.append_assoc]
      · refine ⟨strL ("\n") ++ sectionFillContext env p
          ++ strL ("\n\nHere is the CURRENT content of the \"") ++ sec.title
          ++ strL ("\" section:\n\n---\n")
          ++ trimJs (((objGet st.gddData sectionId).map (·.content)).getD [])
          ++ strL ("\n---\n\nThe user wants to MODIFY/UPDATE this section with the following instructions:\n"),
          strL ("\n\nIMPORTANT RULES:\n- Keep the existing content structure and information intact\n- Apply ONLY the changes the user requested\n- Do NOT remove or rewrite parts that the user didn\x27t mention\n- Add new content where appropriate based on the user\x27s instructions\n- Maintain the same writing style and Markdown formatting\n- Return the COMPLETE updated section (not just the changes)\n")
          ++ (if sectionId = strL ("timeline") then
                strL ("- Today\x27s date is ") ++ env.todayStr
                ++ strL (". All dates must be realistic and in the future starting from today.")
              else [])
          ++ strL ("\n\nWrite in Markdown format with headings and subheadings.\n"), ?_⟩
        unfold updatePrompt
        simp [List.append_assoc]
    · refine ⟨false, freshPrompt env (sectionFillContext env p) sec sectionId
        (otherSectionsFor st.gddData sectionId)
        ((objGet st.sectionPrompts sectionId).getD []),
        by rw [h1, if_neg hcond], by simp [hcond], by simp⟩
  · intro hcu st2 hcp hsp hgd
    have h2 : sectionFillPrompt env st2 sectionId
        = (if trimJs (((objGet st2.gddData sectionId).map (·.content)).getD []) ≠ [] ∧
              (objGet st2.sectionPrompts sectionId).getD [] ≠ [] then
            some (true, updatePrompt env (sectionFillContext env p) sec.title
              (trimJs (((objGet st2.gddData sectionId).map (·.content)).getD []))
              ((objGet st2.sectionPrompts sectionId).getD []) sectionId)
          else
            some (false, freshPrompt env (sectionFillContext env p) sec sectionId
              (otherSectionsFor st2.gddData sectionId)
              ((objGet st2.sectionPrompts sectionId).getD []))) := by
      unfold sectionFillPrompt
      rw [hfind, hcp, hp]
    rw [h1, h2]
    rw [if_neg (by rw [hsp, hcu]; simp), if_neg (by rw [hcu]; simp)]
    rw [hsp, hcu]
    rw [otherSections_filter_invariant st2.gddData, otherSections_filter_invariant st.gddData, hgd]

/-- Witness for C5 at the fixture state, whose overview section has
both existing content and a custom instruction. -/
theorem section_fill_mode_contract_witness :
    ∃ mode prompt, sectionFillPrompt testEnv fixtureState (strL ("overview")) = some (mode, prompt) ∧
      (mode = true ↔
        trimJs (((objGet fixtureState.gddData (strL ("overview"))).map (·.content)).getD []) ≠ [] ∧
        (objGet fixtureState.sectionPrompts (strL ("overview"))).getD [] ≠ []) ∧
      (mode = true →
        (trimJs (((objGet fixtureState.gddData (strL ("overview"))).map (·.content)).getD []))
          <:+: prompt ∧
        ((objGet fixtureState.sectionPrompts (strL ("overview"))).getD []) <:+: prompt) :=
  (section_fill_mode_contract testEnv fixtureState (strL ("overview"))
    (GDD_SECTIONS.get ⟨0, by decide⟩) fixtureProject (by decide) rfl).1

/-! ## C1: line-splitting and joining lemmas -/

theorem splitOnChar_ne_nil (sep : Char) (c : Str) : splitOnChar sep c ≠ [] := by
  cases c with
  | nil => simp [splitOnChar]
  | cons ch cs =>
    unfold splitOnChar
    split
    · simp
    · cases h : splitOnChar sep cs <;> simp

theorem splitOnChar_cons_self (sep : Char) (x : Str) :
    splitOnChar sep (sep :: x) = [] :: splitOnChar sep x := by
  simp [splitOnChar]

theorem splitOnChar_append_cons (sep : Char) (a b : Str) (ha : sep ∉ a) :
    splitOnChar sep (a ++ sep :: b) = a :: splitOnChar sep b := by
  induction a with
  | nil => simp [splitOnChar_cons_self]
  | cons c cs ih =>
    have hc : ¬ (c = sep) := fun h => ha (by rw [h]; exact List.mem_cons_self _ _)
    rw [List.cons_append]
    simp only [splitOnChar, hc, if_false]
    rw [ih (fun h => ha (List.mem_cons_of_mem _ h))]

theorem splitOnChar_no_sep (sep : Char) (c : Str) : ∀ l ∈ splitOnChar sep c, sep ∉ l := by
  induction c with
  | nil =>
    intro l hl
    simp only [splitOnChar, List.mem_singleton] at hl
    subst hl; simp
  | cons ch cs ih =>
    intro l hl
    unfold splitOnChar at hl
    by_cases h : ch = sep
    · rw [if_pos h] at hl
      rcases List.mem_cons.mp hl with rfl | h2
      · simp
      · exact ih l h2
    · rw [if_neg h] at hl
      cases hs : splitOnChar sep cs with
      | nil => exact absurd hs (splitOnChar_ne_nil sep cs)
      | cons l0 ls =>
        rw [hs] at hl
        rcases List.mem_cons.mp hl with rfl | h2
        · intro hmem
          rcases List.mem_cons.mp hmem with h3 | h3
          · exact h h3.symm
          · exact ih l0 (by rw [hs]; exact List.mem_cons_self _ _) h3
        · exact ih l (by rw [hs]; exact List.mem_cons_of_mem _ h2)

theorem joinTermNl_cons (l : Str) (ls : List Str) :
    joinTermNl (l :: ls) = l ++ '\n' :: joinTermNl ls := rfl

theorem joinTermNl_append (a b : List Str) :
    joinTermNl (a ++ b) = joinTermNl a ++ joinTermNl b := by
  induction a with
  | nil => rfl
  | cons l ls ih =>
    rw [List.cons_append, joinTermNl_cons, joinTermNl_cons, ih]
    simp [List.append_assoc]

theorem joinTermNl_splitNl (c : Str) : joinTermNl (splitNl c) = c ++ ['\n'] := by
  unfold splitNl
  induction c with
  | nil => rfl
  | cons ch cs ih =>
    unfold splitOnChar
    by_cases h : ch = '\n'
    · rw [if_pos h, joinTermNl_cons, ih, h]
      rfl
    · rw [if_neg h]
      cases hs : splitOnChar '\n' cs with
      | nil => exact absurd hs (splitOnChar_ne_nil _ _)
      | cons l0 ls =>
        rw [joinTermNl_cons]
        rw [hs, joinTermNl_cons] at ih
        rw [List.cons_append, List.cons_append]
        exact congrArg (ch :: ·) ih

theorem splitNl_joinTermNl (ls : List Str) (h : ∀ l ∈ ls, '\n' ∉ l) :
    splitNl (joinTermNl ls) = ls ++ [[]] := by
  unfold splitNl
  induction ls with
  | nil => rfl
  | cons l rest ih =>
    rw [joinTermNl_cons, splitOnChar_append_cons '\n' l _ (h l (List.mem_cons_self _ _))]
    rw [ih (fun x hx => h x (List.mem_cons_of_mem _ hx))]
    rfl

theorem joinNl_append_blank (l : List Str) : joinNl (l ++ [[]]) = joinTermNl l := by
  induction l with
  | nil => rfl
  | cons a rest ih =>
    cases rest with
    | nil =>
      have h1 : joinNl ([a] ++ [[]]) = a ++ strL ("\n") ++ [] := rfl
      rw [h1, List.append_nil]
      rfl
    | cons b rest2 =>
      have h1 : joinNl ((a :: b :: rest2) ++ [[]])
          = a ++ strL ("\n") ++ joinNl ((b :: rest2) ++ [[]]) := rfl
      rw [h1, ih]
      simp only [List.append_assoc]
      rfl

theorem joinNl_cons_cons (a b : Str) (rest : List Str) :
    joinNl (a :: b :: rest) = a ++ strL ("\n") ++ joinNl (b :: rest) := rfl

/-! ## C1: trim lemmas -/

theorem trimRightWs_prefix_self (l : Str) : trimRightWs l <+: l := by
  have h : List.dropWhile isWs l.reverse <:+ l.reverse := List.dropWhile_suffix isWs
  have h2 := List.reverse_prefix.mpr h
  rwa [List.reverse_reverse] at h2

theorem trim_fix_parts (c : Str) (h : trimJs c = c) :
    trimLeftWs c = c ∧ trimRightWs c = c := by
  have h1 : (trimLeftWs c).length ≤ c.length := (List.dropWhile_suffix isWs).length_le
  have h2 : (trimJs c).length ≤ (trimLeftWs c).length := by
    unfold trimJs
    exact (trimRightWs_prefix_self _).length_le
  rw [h] at h2
  have hlen : (trimLeftWs c).length = c.length := le_antisymm h1 h2
  have hL : trimLeftWs c = c := (List.dropWhile_suffix isWs).sublist.eq_of_length hlen
  refine ⟨hL, ?_⟩
  have h3 := h
  unfold trimJs at h3
  rwa [hL] at h3

theorem dropWhile_append_all (p : Char → Bool) (w l : Str) (hw : ∀ x ∈ w, p x = true) :
    (w ++ l).dropWhile p = l.dropWhile p := by
  induction w with
  | nil => rfl
  | cons c cs ih =>
    rw [List.cons_append, List.dropWhile_cons]
    simp only [hw c (List.mem_cons_self _ _), if_true]
    exact ih (fun x hx => hw x (List.mem_cons_of_mem _ hx))

theorem head_not_ws_of_trimLeft_fix (ch : Char) (ct : Str)
    (hL : trimLeftWs (ch :: ct) = ch :: ct) : isWs ch = false := by
  by_contra hcon
  rw [Bool.not_eq_false] at hcon
  have hstep : trimLeftWs (ch :: ct) = trimLeftWs ct := by
    unfold trimLeftWs
    rw [List.dropWhile_cons]
    simp only [hcon, if_true]
  rw [hL] at hstep
  have hlen : (trimLeftWs ct).length ≤ ct.length := (List.dropWhile_suffix isWs).length_le
  rw [← hstep] at hlen
  simp at hlen

theorem trimJs_pad (c w1 w2 : Str) (hfix : trimJs c = c) (hne : c ≠ [])
    (h1 : ∀ x ∈ w1, isWs x = true) (h2 : ∀ x ∈ w2, isWs x = true) :
    trimJs (w1 ++ (c ++ w2)) = c := by
  obtain ⟨hL, hR⟩ := trim_fix_parts c hfix
  obtain ⟨ch, ct, rfl⟩ := List.exists_cons_of_ne_nil hne
  have hch : isWs ch = false := head_not_ws_of_trimLeft_fix ch ct hL
  unfold trimJs trimLeftWs
  rw [dropWhile_append_all isWs w1 _ h1, List.cons_append, List.dropWhile_cons]
  simp only [hch, Bool.false_eq_true, if_false]
  unfold trimRightWs
  have hrev : (ch :: (ct ++ w2)).reverse = w2.reverse ++ ((ct.reverse) ++ [ch]) := by
    simp [List.reverse_cons, List.reverse_append, List.append_assoc]
  rw [hrev, dropWhile_append_all isWs w2.reverse _
    (fun x hx => h2 x (List.mem_reverse.mp hx))]
  have hR2 : List.dropWhile isWs (ct.reverse ++ [ch]) = ct.reverse ++ [ch] := by
    have := hR
    unfold trimRightWs at this
    have hrev2 : (ch :: ct).reverse = ct.reverse ++ [ch] := by simp [List.reverse_cons]
    rw [hrev2] at this
    have h4 := congrArg List.reverse this
    rwa [List.reverse_reverse, hrev2] at h4
  rw [hR2]
  have : (ct.reverse ++ [ch]).reverse = ch :: ct := by simp
  rw [this]

/-! ## C1: boundary scanning and collection lemmas -/

theorem scanBoundaries_none (ls : List Str) (h : ∀ l ∈ ls, lineBoundaryId l = none) :
    ∀ i, scanBoundaries ls i = [] := by
  induction ls with
  | nil => intro i; rfl
  | cons l rest ih =>
    intro i
    unfold scanBoundaries
    rw [h l (List.mem_cons_self _ _)]
    exact ih (fun x hx => h x (List.mem_cons_of_mem _ hx)) (i + 1)

theorem scanBoundaries_append_none (pre : List Str) (h : ∀ l ∈ pre, lineBoundaryId l = none) :
    ∀ (X : List Str) (i : Nat),
      scanBoundaries (pre ++ X) i = scanBoundaries X (i + pre.length) := by
  induction pre with
  | nil => intro X i; simp [scanBoundaries]
  | cons l rest ih =>
    intro X i
    rw [List.cons_append]
    have e1 : scanBoundaries (l :: (rest ++ X)) i = scanBoundaries (rest ++ X) (i + 1) := by
      simp [scanBoundaries, h l (List.mem_cons_self _ _)]
    rw [e1, ih (fun x hx => h x (List.mem_cons_of_mem _ hx)) X (i + 1)]
    have e2 : i + 1 + rest.length = i + (l :: rest).length := by
      simp only [List.length_cons]
      omega
    rw [e2]

theorem scanBoundaries_cons_some (l : Str) (ls : List Str) (i : Nat) (id : Str)
    (h : lineBoundaryId l = some id) :
    scanBoundaries (l :: ls) i = (i, id) :: scanBoundaries ls (i + 1) := by
  simp [scanBoundaries, h]

theorem scanBoundaries_cons_none (l : Str) (ls : List Str) (i : Nat)
    (h : lineBoundaryId l = none) :
    scanBoundaries (l :: ls) i = scanBoundaries ls (i + 1) := by
  simp [scanBoundaries, h]

theorem scanBoundaries_shift (X : List Str) :
    ∀ i, scanBoundaries X i = (scanBoundaries X 0).map (fun p => (p.1 + i, p.2)) := by
  induction X with
  | nil => intro i; rfl
  | cons l ls ih =>
    intro i
    cases hb : lineBoundaryId l with
    | none =>
      rw [scanBoundaries_cons_none l ls i hb, scanBoundaries_cons_none l ls 0 hb,
        ih (i + 1), ih 1, List.map_map]
      apply List.map_congr_left
      intro p _
      simp only [Function.comp_apply]
      rw [Prod.ext_iff]
      refine ⟨?_, rfl⟩
      simp only
      omega
    | some id =>
      rw [scanBoundaries_cons_some l ls i id hb, scanBoundaries_cons_some l ls 0 id hb,
        List.map_cons, ih (i + 1), ih 1, List.map_map]
      congr 1
      · rw [Prod.ext_iff]
        refine ⟨?_, rfl⟩
        simp only
        omega
      · apply List.map_congr_left
        intro p _
        simp only [Function.comp_apply]
        rw [Prod.ext_iff]
        refine ⟨?_, rfl⟩
        simp only
        omega

theorem nextStop_shift (pre lines : List Str) (rest : List (Nat × Str)) :
    nextStop (pre ++ lines) (rest.map (fun p => (p.1 + pre.length, p.2)))
      = nextStop lines rest + pre.length := by
  cases rest with
  | nil =>
    simp only [List.map_nil, nextStop, List.length_append]
    omega
  | cons r rs =>
    rcases r with ⟨j, id2⟩
    simp [nextStop]

theorem collectContents_cons (env : Env) (lines : List Str) (i : Nat) (id : Str)
    (rest : List (Nat × Str)) (m : Gdd) :
    collectContents env lines ((i, id) :: rest) m
      = collectContents env lines rest
          (if trimJs (joinNl ((lines.drop (i + 1)).take (nextStop lines rest - (i + 1)))) = []
           then m
           else objSet m id
             ({ content := trimJs (joinNl ((lines.drop (i + 1)).take (nextStop lines rest - (i + 1)))),
                lastUpdated := some env.nowIso })) := rfl

theorem collect_shift (env : Env) (pre lines : List Str) :
    ∀ (bs : List (Nat × Str)) (m : Gdd),
    collectContents env (pre ++ lines) (bs.map (fun p => (p.1 + pre.length, p.2))) m
      = collectContents env lines bs m := by
  intro bs
  induction bs with
  | nil => intro m; rfl
  | cons b rest ih =>
    intro m
    rcases b with ⟨i, id⟩
    rw [List.map_cons]
    have hslice : ((pre ++ lines).drop (i + pre.length + 1)).take
          (nextStop (pre ++ lines) (rest.map (fun p => (p.1 + pre.length, p.2)))
            - (i + pre.length + 1))
        = (lines.drop (i + 1)).take (nextStop lines rest - (i + 1)) := by
      rw [nextStop_shift]
      have e1 : i + pre.length + 1 = pre.length + (i + 1) := by omega
      rw [e1, List.drop_append]
      congr 1
      omega
    rw [collectContents_cons env (pre ++ lines) (i + pre.length) id
        (rest.map (fun p => (p.1 + pre.length, p.2))) m,
      collectContents_cons env lines i id rest m, hslice]
    exact ih _

theorem collect_segments (env : Env) (trail : List Str)
    (htrail : ∀ l ∈ trail, lineBoundaryId l = none) :
    ∀ (segs : List (Str × Str × List Str)) (m : Gdd),
    (∀ s ∈ segs, lineBoundaryId s.1 = some s.2.1 ∧ ∀ l ∈ s.2.2, lineBoundaryId l = none) →
    collectContents env (segLines segs ++ trail) (scanBoundaries (segLines segs ++ trail) 0) m
      = (withTrail trail segs).foldl (segStep env) m := by
  intro segs
  induction segs with
  | nil =>
    intro m _
    rw [show segLines ([] : List (Str × Str × List Str)) = [] from rfl, List.nil_append]
    rw [scanBoundaries_none trail htrail 0]
    rfl
  | cons s rest ih =>
    intro m hsegs
    rcases s with ⟨line, id, body⟩
    have hmem := hsegs _ (List.mem_cons_self _ _)
    dsimp only at hmem
    obtain ⟨hb, hbody⟩ := hmem
    have hlines : segLines ((line, id, body) :: rest) ++ trail
        = line :: (body ++ (segLines rest ++ trail)) := by
      simp [segLines, List.append_assoc]
    rw [hlines, scanBoundaries_cons_some _ _ 0 id hb,
      scanBoundaries_append_none body hbody (segLines rest ++ trail) 1,
      scanBoundaries_shift (segLines rest ++ trail) (1 + body.length),
      collectContents_cons]
    cases rest with
    | nil =>
      rw [show segLines ([] : List (Str × Str × List Str)) = [] from rfl, List.nil_append]
      rw [scanBoundaries_none trail htrail 0]
      rw [show (([] : List (Nat × Str)).map (fun p => (p.1 + (1 + body.length), p.2)))
          = [] from rfl]
      have hstop : nextStop (line :: (body ++ trail)) [] = (body ++ trail).length + 1 := by
        simp [nextStop]
      rw [hstop]
      have hslice : ((line :: (body ++ trail)).drop (0 + 1)).take
            ((body ++ trail).length + 1 - (0 + 1)) = body ++ trail := by
        have e : (body ++ trail).length + 1 - (0 + 1) = (body ++ trail).length := by omega
        rw [e]
        simp
      rw [hslice]
      have hrhs : withTrail trail [(line, id, body)] = [(line, id, body ++ trail)] := rfl
      rw [hrhs]
      rfl
    | cons s2 rest2 =>
      rcases s2 with ⟨line2, id2, body2⟩
      have hmem2 := hsegs _ (List.mem_cons_of_mem _ (List.mem_cons_self _ _))
      dsimp only at hmem2
      obtain ⟨hb2, _⟩ := hmem2
      have hY : segLines ((line2, id2, body2) :: rest2) ++ trail
          = line2 :: (body2 ++ (segLines rest2 ++ trail)) := by
        simp [segLines, List.append_assoc]
      have hscanY : scanBoundaries (segLines ((line2, id2, body2) :: rest2) ++ trail) 0
          = (0, id2) :: scanBoundaries (body2 ++ (segLines rest2 ++ trail)) 1 := by
        rw [hY, scanBoundaries_cons_some _ _ 0 id2 hb2]
      have hstop : nextStop (line :: (body ++ (segLines ((line2, id2, body2) :: rest2) ++ trail)))
          ((scanBoundaries (segLines ((line2, id2, body2) :: rest2) ++ trail) 0).map
            (fun p => (p.1 + (1 + body.length), p.2))) = 1 + body.length := by
        rw [hscanY]
        simp [nextStop]
      rw [hstop]
      have hslice : ((line :: (body ++ (segLines ((line2, id2, body2) :: rest2) ++ trail))).drop
            (0 + 1)).take (1 + body.length - (0 + 1)) = body := by
        have e : 1 + body.length - (0 + 1) = body.length := by omega
        rw [e]
        have e2 : (line :: (body ++ (segLines ((line2, id2, body2) :: rest2) ++ trail))).drop
            (0 + 1) = body ++ (segLines ((line2, id2, body2) :: rest2) ++ trail) := rfl
        rw [e2, List.take_left]
      rw [hslice]
      have hsf : (fun p : Nat × Str => (p.1 + (1 + body.length), p.2))
          = (fun p : Nat × Str => (p.1 + (line :: body).length, p.2)) := by
        funext p
        rw [Prod.ext_iff]
        refine ⟨?_, rfl⟩
        simp only [List.length_cons]
        omega
      rw [show line :: (body ++ (segLines ((line2, id2, body2) :: rest2) ++ trail))
          = (line :: body) ++ (segLines ((line2, id2, body2) :: rest2) ++ trail) from rfl,
        hsf, collect_shift env (line :: body) (segLines ((line2, id2, body2) :: rest2) ++ trail)]
      have hrhs : withTrail trail ((line, id, body) :: (line2, id2, body2) :: rest2)
          = (line, id, body) :: withTrail trail ((line2, id2, body2) :: rest2) := rfl
      rw [hrhs, List.foldl_cons]
      have hstep : (if trimJs (joinNl body) = [] then m
          else objSet m id ({ content := trimJs (joinNl body), lastUpdated := some env.nowIso }))
          = segStep env m (line, id, body) := rfl
      rw [hstep]
      exact ih (segStep env m (line, id, body))
        (fun s hs => hsegs s (List.mem_cons_of_mem _ hs))

/-! ## C1: the export string as terminated lines -/

theorem foldl_append_form {α : Type} (f : α → Str) (g : Str → α → Str)
    (hg : ∀ md x, g md x = md ++ f x) :
    ∀ (l : List α) (base : Str), l.foldl g base = base ++ (l.map f).flatten := by
  intro l
  induction l with
  | nil => intro base; simp
  | cons x xs ih =>
    intro base
    rw [List.foldl_cons, hg, ih, List.map_cons, List.flatten_cons, List.append_assoc]

theorem block_joinTerm (sec : GddSection) (c : Str) :
    joinTermNl (sectionBlockLines sec c)
      = strL ("## ") ++ sec.title ++ strL ("\n\n") ++ (c ++ strL ("\n\n")) := by
  unfold sectionBlockLines
  rw [joinTermNl_cons, joinTermNl_cons, joinTermNl_append, joinTermNl_splitNl]
  have h1 : joinTermNl [[]] = ['\n'] := rfl
  rw [h1]
  simp only [List.append_assoc, List.nil_append]
  rfl

theorem flatten_blocks_joinTerm (gdd : Gdd) (secs : List GddSection) :
    joinTermNl ((secs.map (fun sec => sectionBlockLines sec (exportContent gdd sec))).flatten)
      = (secs.map (fun sec => strL ("## ") ++ sec.title ++ strL ("\n\n")
          ++ (exportContent gdd sec ++ strL ("\n\n")))).flatten := by
  induction secs with
  | nil => rfl
  | cons sec rest ih =>
    rw [List.map_cons, List.flatten_cons, joinTermNl_append, block_joinTerm, ih,
      List.map_cons, List.flatten_cons]

theorem header_joinTerm (env : Env) (p : Project) :
    joinTermNl (exportHeaderLines env p)
      = strL ("# ") ++ p.name ++ strL (" - Game Design Document\n\n")
        ++ strL ("**Created:** ") ++ env.fmtDate p.createdAt ++ strL ("\n")
        ++ strL ("**Last Updated:** ") ++ env.fmtDate p.updatedAt ++ strL ("\n")
        ++ strL ("**Genre:** ") ++ p.genre ++ strL ("\n")
        ++ strL ("**Platforms:** ") ++ joinSep (strL (", ")) p.platforms ++ strL ("\n\n")
        ++ strL ("---\n\n") := by
  have h0 : joinTermNl ([] : List Str) = [] := rfl
  unfold exportHeaderLines
  simp only [joinTermNl_cons, h0, List.nil_append]
  simp only [List.append_assoc]
  rfl

theorem exportContent_shape (gdd : Gdd) (sec : GddSection) :
    (match objGet gdd sec.id with
      | some d => if d.content ≠ [] then d.content ++ strL ("\n\n")
                  else gddPlaceholder ++ strL ("\n\n")
      | none => gddPlaceholder ++ strL ("\n\n"))
      = exportContent gdd sec ++ strL ("\n\n") := by
  unfold exportContent
  cases objGet gdd sec.id with
  | none => rfl
  | some d =>
    show (if d.content ≠ [] then d.content ++ strL ("\n\n") else gddPlaceholder ++ strL ("\n\n"))
      = (if d.content ≠ [] then d.content else gddPlaceholder) ++ strL ("\n\n")
    by_cases h : d.content ≠ []
    · rw [if_pos h, if_pos h]
    · rw [if_neg h, if_neg h]

theorem export_eq_joinTerm (env : Env) (p : Project) (gdd : Gdd) :
    generateMarkdownExport env p gdd = joinTermNl (exportLines env p gdd) := by
  unfold generateMarkdownExport exportLines
  rw [joinTermNl_append, header_joinTerm, flatten_blocks_joinTerm]
  rw [foldl_append_form (fun sec =>
      strL ("## ") ++ (sec.title ++ (strL ("\n\n")
        ++ (match objGet gdd sec.id with
            | some d => if d.content ≠ [] then d.content ++ strL ("\n\n")
                        else gddPlaceholder ++ strL ("\n\n")
            | none => gddPlaceholder ++ strL ("\n\n")))))
    _ (by intro md x; simp [List.append_assoc]) GDD_SECTIONS []]
  rw [List.nil_append]
  have hmap : (GDD_SECTIONS.map (fun sec =>
      strL ("## ") ++ (sec.title ++ (strL ("\n\n")
        ++ (match objGet gdd sec.id with
            | some d => if d.content ≠ [] then d.content ++ strL ("\n\n")
                        else gddPlaceholder ++ strL ("\n\n")
            | none => gddPlaceholder ++ strL ("\n\n"))))))
      = GDD_SECTIONS.map (fun sec => strL ("## ") ++ sec.title ++ strL ("\n\n")
          ++ (exportContent gdd sec ++ strL ("\n\n"))) := by
    apply List.map_congr_left
    intro sec _
    rw [exportContent_shape]
    simp [List.append_assoc]
  rw [hmap]

/-! ## C1: lines of the export that are not boundaries -/

theorem lineBoundary_none_of_head (c : Char) (rest : Str) (hws : isWs c = false)
    (hc : c ≠ '#') : lineBoundaryId (c :: rest) = none := by
  have hL : trimLeftWs (c :: rest) = c :: rest := by
    unfold trimLeftWs
    rw [List.dropWhile_cons]
    simp [hws]
  have hpre : (strL ("## ")).isPrefixOf (trimJs (c :: rest)) = false := by
    unfold trimJs
    rw [hL]
    cases htr : trimRightWs (c :: rest) with
    | nil => rfl
    | cons d t =>
      have hp : d :: t <+: c :: rest := htr ▸ trimRightWs_prefix_self (c :: rest)
      obtain ⟨s, hs⟩ := hp
      rw [List.cons_append] at hs
      injection hs with h1 _
      subst h1
      have hbeq : (('#' : Char) == d) = false := beq_eq_false_iff_ne.mpr (fun h => hc h.symm)
      show ((('#' : Char) == d) && ((strL ("# ")).isPrefixOf t)) = false
      rw [hbeq, Bool.false_and]
  simp [lineBoundaryId, hpre]

theorem lineBoundary_none_of_h1 (rest : Str) :
    lineBoundaryId ('#' :: ' ' :: rest) = none := by
  have hws : isWs '#' = false := by decide
  have hL : trimLeftWs ('#' :: ' ' :: rest) = '#' :: ' ' :: rest := by
    unfold trimLeftWs
    rw [List.dropWhile_cons]
    simp [hws]
  have hpre : (strL ("## ")).isPrefixOf (trimJs ('#' :: ' ' :: rest)) = false := by
    unfold trimJs
    rw [hL]
    cases htr : trimRightWs ('#' :: ' ' :: rest) with
    | nil => rfl
    | cons d t =>
      have hp : d :: t <+: '#' :: ' ' :: rest := htr ▸ trimRightWs_prefix_self ('#' :: ' ' :: rest)
      obtain ⟨s, hs⟩ := hp
      rw [List.cons_append] at hs
      injection hs with h1 h2
      subst h1
      cases t with
      | nil => decide
      | cons e t2 =>
        rw [List.cons_append] at h2
        injection h2 with h3 _
        subst h3
        have h4 : (('#' : Char) == ' ') = false := by decide
        show ((('#' : Char) == '#') && ((('#' : Char) == ' ') && (([' '] : Str).isPrefixOf t2))) = false
        rw [h4, Bool.false_and, Bool.and_false]
  simp [lineBoundaryId, hpre]

theorem header_lines_no_boundary (env : Env) (p : Project) :
    ∀ l ∈ exportHeaderLines env p, lineBoundaryId l = none := by
  intro l hl
  unfold exportHeaderLines at hl
  simp only [List.mem_cons, List.not_mem_nil, or_false] at hl
  rcases hl with h|h|h|h|h|h|h|h|h
  · subst h
    exact lineBoundary_none_of_h1 _
  · subst h; decide
  · subst h
    exact lineBoundary_none_of_head '*' _ (by decide) (by decide)
  · subst h
    exact lineBoundary_none_of_head '*' _ (by decide) (by decide)
  · subst h
    exact lineBoundary_none_of_head '*' _ (by decide) (by decide)
  · subst h
    exact lineBoundary_none_of_head '*' _ (by decide) (by decide)
  · subst h; decide
  · subst h; decide
  · subst h; decide

theorem titles_newline_free : ∀ sec ∈ GDD_SECTIONS, ('\n' ∈ sec.title) = False := by
  decide

theorem title_boundaries :
    ∀ sec ∈ GDD_SECTIONS, lineBoundaryId (strL ("## ") ++ sec.title) = some sec.id := by
  decide

/-! ## C1: the export splits back into its lines -/

theorem export_lines_newline_free (env : Env) (p : Project) (gdd : Gdd)
    (hname : '\n' ∉ p.name) (hcr : '\n' ∉ env.fmtDate p.createdAt)
    (hup : '\n' ∉ env.fmtDate p.updatedAt) (hg : '\n' ∉ p.genre)
    (hpf : '\n' ∉ joinSep (strL (", ")) p.platforms) :
    ∀ l ∈ exportLines env p gdd, '\n' ∉ l := by
  intro l hl
  unfold exportLines at hl
  rw [List.mem_append] at hl
  cases hl with
  | inl hh =>
    unfold exportHeaderLines at hh
    simp only [List.mem_cons, List.not_mem_nil, or_false] at hh
    rcases hh with h|h|h|h|h|h|h|h|h
    all_goals subst h
    · intro hmem
      simp only [List.mem_append] at hmem
      rcases hmem with (hx | hx) | hx
      · exact absurd hx (by decide)
      · exact hname hx
      · exact absurd hx (by decide)
    · exact List.not_mem_nil _
    · intro hmem
      simp only [List.mem_append] at hmem
      rcases hmem with hx | hx
      · exact absurd hx (by decide)
      · exact hcr hx
    · intro hmem
      simp only [List.mem_append] at hmem
      rcases hmem with hx | hx
      · exact absurd hx (by decide)
      · exact hup hx
    · intro hmem
      simp only [List.mem_append] at hmem
      rcases hmem with hx | hx
      · exact absurd hx (by decide)
      · exact hg hx
    · intro hmem
      simp only [List.mem_append] at hmem
      rcases hmem with hx | hx
      · exact absurd hx (by decide)
      · exact hpf hx
    · exact List.not_mem_nil _
    · decide
    · exact List.not_mem_nil _
  | inr hb =>
    rw [List.mem_flatten] at hb
    obtain ⟨blk, hblk, hlblk⟩ := hb
    rw [List.mem_map] at hblk
    obtain ⟨sec, hsec, rfl⟩ := hblk
    unfold sectionBlockLines at hlblk
    simp only [List.mem_cons, List.mem_append, List.not_mem_nil, or_false] at hlblk
    rcases hlblk with h | h | h | h
    · subst h
      intro hmem
      simp only [List.mem_append] at hmem
      rcases hmem with hx | hx
      · exact absurd hx (by decide)
      · exact (titles_newline_free sec hsec) ▸ hx
    · subst h
      exact List.not_mem_nil _
    · exact splitOnChar_no_sep '\n' _ l h
    · subst h
      exact List.not_mem_nil _

theorem export_splits (env : Env) (p : Project) (gdd : Gdd)
    (h : ∀ l ∈ exportLines env p gdd, '\n' ∉ l) :
    splitNl (generateMarkdownExport env p gdd) = exportLines env p gdd ++ [[]] := by
  rw [export_eq_joinTerm]
  exact splitNl_joinTermNl _ h

theorem blocks_eq_segLines (gdd : Gdd) :
    (GDD_SECTIONS.map (fun sec => sectionBlockLines sec (exportContent gdd sec))).flatten
      = segLines (GDD_SECTIONS.map (fun sec =>
          (strL ("## ") ++ sec.title, sec.id, [] :: (splitNl (exportContent gdd sec) ++ [[]])))) := by
  unfold segLines
  rw [List.map_map]
  rfl

/-! ## C1: the body of one exported segment trims back to the content -/

theorem joinNl_body (c : Str) :
    joinNl ([] :: (splitNl c ++ [[]])) = ['\n'] ++ (c ++ ['\n']) := by
  have e : joinNl ([] :: (splitNl c ++ [[]]))
      = [] ++ strL ("\n") ++ joinNl (splitNl c ++ [[]]) := by
    obtain ⟨d, rest, hs⟩ := List.exists_cons_of_ne_nil
      (show splitNl c ++ [[]] ≠ [] by simp)
    rw [hs]
    exact joinNl_cons_cons [] d rest
  rw [e, joinNl_append_blank, joinTermNl_splitNl]
  rfl

theorem joinNl_body_trail (c : Str) :
    joinNl (([] :: (splitNl c ++ [[]])) ++ [[]]) = ['\n'] ++ (c ++ ['\n', '\n']) := by
  have hgrp : ([] :: (splitNl c ++ [[]])) ++ [[]]
      = [] :: ((splitNl c ++ [[]]) ++ [[]]) := rfl
  rw [hgrp]
  have e : joinNl ([] :: ((splitNl c ++ [[]]) ++ [[]]))
      = [] ++ strL ("\n") ++ joinNl ((splitNl c ++ [[]]) ++ [[]]) := by
    obtain ⟨d, rest, hs⟩ := List.exists_cons_of_ne_nil
      (show (splitNl c ++ [[]]) ++ [[]] ≠ [] by simp)
    rw [hs]
    exact joinNl_cons_cons [] d rest
  rw [e, joinNl_append_blank, joinTermNl_append, joinTermNl_splitNl]
  have h1 : joinTermNl [[]] = ['\n'] := rfl
  rw [h1]
  simp only [List.append_assoc]
  rfl

theorem trim_body (c : Str) (hne : c ≠ []) (hfix : trimJs c = c) :
    trimJs (joinNl ([] :: (splitNl c ++ [[]]))) = c := by
  rw [joinNl_body]
  exact trimJs_pad c ['\n'] ['\n'] hfix hne (by decide) (by decide)

theorem trim_body_trail (c : Str) (hne : c ≠ []) (hfix : trimJs c = c) :
    trimJs (joinNl (([] :: (splitNl c ++ [[]])) ++ [[]])) = c := by
  rw [joinNl_body_trail]
  exact trimJs_pad c ['\n'] ['\n', '\n'] hfix hne (by decide) (by decide)

theorem segStep_filled (env : Env) (m : Gdd) (h id c : Str) (hne : c ≠ [])
    (hfix : trimJs c = c) :
    segStep env m (h, id, [] :: (splitNl c ++ [[]]))
      = objSet m id ({ content := c, lastUpdated := some env.nowIso }) := by
  show (if trimJs (joinNl ([] :: (splitNl c ++ [[]]))) = [] then m
        else objSet m id ({ content := trimJs (joinNl ([] :: (splitNl c ++ [[]]))),
                            lastUpdated := some env.nowIso }))
      = objSet m id ({ content := c, lastUpdated := some env.nowIso })
  rw [trim_body c hne hfix, if_neg hne]

theorem segStep_filled_trail (env : Env) (m : Gdd) (h id c : Str) (hne : c ≠ [])
    (hfix : trimJs c = c) :
    segStep env m (h, id, ([] :: (splitNl c ++ [[]])) ++ [[]])
      = objSet m id ({ content := c, lastUpdated := some env.nowIso }) := by
  show (if trimJs (joinNl (([] :: (splitNl c ++ [[]])) ++ [[]])) = [] then m
        else objSet m id ({ content := trimJs (joinNl (([] :: (splitNl c ++ [[]])) ++ [[]])),
                            lastUpdated := some env.nowIso }))
      = objSet m id ({ content := c, lastUpdated := some env.nowIso })
  rw [trim_body_trail c hne hfix, if_neg hne]

theorem fold_segs (env : Env) :
    ∀ (ps : List (Str × Str × Str)) (m : Gdd),
    (∀ x ∈ ps, x.2.2 ≠ [] ∧ trimJs x.2.2 = x.2.2) → ps ≠ [] →
    (withTrail [[]] (ps.map (fun x => (x.1, x.2.1, [] :: (splitNl x.2.2 ++ [[]]))))).foldl
        (segStep env) m
      = ps.foldl (fun acc x =>
          objSet acc x.2.1 ({ content := x.2.2, lastUpdated := some env.nowIso })) m := by
  intro ps
  induction ps with
  | nil => intro m _ hne; exact absurd rfl hne
  | cons x rest ih =>
    intro m hsafe _
    rcases x with ⟨h, id, c⟩
    obtain ⟨hcne, hcfix⟩ := hsafe _ (List.mem_cons_self _ _)
    cases rest with
    | nil =>
      have e1 : withTrail [[]] ([(h, id, c)].map
            (fun x => (x.1, x.2.1, [] :: (splitNl x.2.2 ++ [[]]))))
          = [(h, id, ([] :: (splitNl c ++ [[]])) ++ [[]])] := rfl
      rw [e1]
      have e2 : ([(h, id, ([] :: (splitNl c ++ [[]])) ++ [[]])]).foldl (segStep env) m
          = segStep env m (h, id, ([] :: (splitNl c ++ [[]])) ++ [[]]) := rfl
      rw [e2, segStep_filled_trail env m h id c hcne hcfix]
      rfl
    | cons y rest2 =>
      have e1 : withTrail [[]] (((h, id, c) :: y :: rest2).map
            (fun x => (x.1, x.2.1, [] :: (splitNl x.2.2 ++ [[]]))))
          = (h, id, [] :: (splitNl c ++ [[]]))
            :: withTrail [[]] ((y :: rest2).map
                (fun x => (x.1, x.2.1, [] :: (splitNl x.2.2 ++ [[]])))) := rfl
      rw [e1, List.foldl_cons, segStep_filled env m h id c hcne hcfix,
        ih _ (fun z hz => hsafe z (List.mem_cons_of_mem _ hz)) (by simp)]
      rfl

/-! ## C1: lookups after the collected fold -/

theorem scan_segs_ne_nil (segs : List (Str × Str × List Str)) (trail : List Str) (i : Nat)
    (hb : ∀ s ∈ segs, lineBoundaryId s.1 = some s.2.1) (hne : segs ≠ []) :
    scanBoundaries (segLines segs ++ trail) i ≠ [] := by
  obtain ⟨s, rest, rfl⟩ := List.exists_cons_of_ne_nil hne
  have hlines : segLines (s :: rest) ++ trail = s.1 :: (s.2.2 ++ (segLines rest ++ trail)) := by
    simp [segLines, List.append_assoc]
  rw [hlines, scanBoundaries_cons_some _ _ i s.2.1 (hb s (List.mem_cons_self _ _))]
  exact List.cons_ne_nil _ _

theorem objGet_foldl_not_mem {α : Type} (F : GddSection → α) :
    ∀ (secs : List GddSection) (m : List (Str × α)) (k : Str),
    (∀ sec ∈ secs, sec.id ≠ k) →
    objGet (secs.foldl (fun acc sec => objSet acc sec.id (F sec)) m) k = objGet m k := by
  intro secs
  induction secs with
  | nil => intro m k _; rfl
  | cons sec rest ih =>
    intro m k h
    rw [List.foldl_cons, ih _ k (fun s hs => h s (List.mem_cons_of_mem _ hs)),
      objGet_objSet, if_neg (fun he => h sec (List.mem_cons_self _ _) he.symm)]

theorem objGet_foldl_insert {α : Type} (F : GddSection → α) :
    ∀ (secs : List GddSection) (m : List (Str × α)) (k : Str),
    (secs.map (fun sec => sec.id)).Nodup →
    objGet (secs.foldl (fun acc sec => objSet acc sec.id (F sec)) m) k
      = match secs.find? (fun sec => sec.id == k) with
        | some sec => some (F sec)
        | none => objGet m k := by
  intro secs
  induction secs with
  | nil => intro m k _; rfl
  | cons sec rest ih =>
    intro m k hnd
    rw [List.map_cons, List.nodup_cons] at hnd
    obtain ⟨hnm, hnd2⟩ := hnd
    rw [List.foldl_cons]
    by_cases hk : sec.id = k
    · have hfind : (sec :: rest).find? (fun s => s.id == k) = some sec :=
        List.find?_cons_of_pos _ (by simp [hk])
      rw [hfind]
      have hrest : ∀ s ∈ rest, s.id ≠ k := by
        intro s hs he
        apply hnm
        have : sec.id ∈ List.map (fun s => s.id) rest := by
          rw [hk, ← he]
          exact List.mem_map_of_mem _ hs
        exact this
      rw [objGet_foldl_not_mem F rest _ k hrest, objGet_objSet, if_pos hk.symm]
    · have hfind : (sec :: rest).find? (fun s => s.id == k) = rest.find? (fun s => s.id == k) :=
        List.find?_cons_of_neg _ (by simp [hk])
      rw [hfind, ih _ k hnd2]
      cases hf : rest.find? (fun s => s.id == k) with
      | some s => rfl
      | none =>
        rw [objGet_objSet, if_neg (fun he => hk he.symm)]

theorem parseMarkdownImport_gdd (env : Env) (md : Str) :
    (parseMarkdownImport env md).gdd
      = (if scanBoundaries (splitNl md) 0 = []
         then fallbackScan env (splitNl md) none [] []
         else collectContents env (splitNl md) (scanBoundaries (splitNl md) 0) []) := rfl

theorem exportContent_filled (gdd : Gdd) (sec : GddSection) (d : SectionData)
    (hdo : objGet gdd sec.id = some d) (hdne : d.content ≠ []) :
    exportContent gdd sec = d.content := by
  unfold exportContent
  rw [hdo]
  show (if d.content ≠ [] then d.content else gddPlaceholder) = d.content
  rw [if_pos hdne]

/-- C1: the export/import round trip reproduces the Section Content map
on the states the exporter can faithfully serialize: whenever the
project metadata renders without newlines, every stored key is a
registry id, and every registry section is filled with non-empty,
trim-invariant content none of whose lines is itself a section boundary,
importing the generated markdown yields exactly the original contents at
every key. (The unrestricted claim is refuted separately: an unfilled
section re-imports the placeholder paragraph as content.) -/
theorem export_import_content_roundtrip (env : Env) (p : Project) (gdd : Gdd)
    (hname : '\n' ∉ p.name) (hcr : '\n' ∉ env.fmtDate p.createdAt)
    (hup : '\n' ∉ env.fmtDate p.updatedAt) (hgen : '\n' ∉ p.genre)
    (hpf : '\n' ∉ joinSep (strL (", ")) p.platforms)
    (hdom : ∀ e ∈ gdd, e.1 ∈ registryIds)
    (hfill : ∀ sec ∈ GDD_SECTIONS, ∃ d,
      objGet gdd sec.id = some d ∧ contentRoundTripSafe d.content) :
    ∀ k, (objGet (parseMarkdownImport env (generateMarkdownExport env p gdd)).gdd k).map
        SectionData.content
      = (objGet gdd k).map SectionData.content := by
  intro k
  have hnl := export_lines_newline_free env p gdd hname hcr hup hgen hpf
  have hlines : splitNl (generateMarkdownExport env p gdd)
      = exportHeaderLines env p
        ++ (segLines (GDD_SECTIONS.map (fun sec =>
              (strL ("## ") ++ sec.title, sec.id,
                [] :: (splitNl (exportContent gdd sec) ++ [[]])))) ++ [[]]) := by
    rw [export_splits env p gdd hnl]
    unfold exportLines
    rw [blocks_eq_segLines, List.append_assoc]
  have hsegsafe : ∀ s ∈ GDD_SECTIONS.map (fun sec =>
        (strL ("## ") ++ sec.title, sec.id, [] :: (splitNl (exportContent gdd sec) ++ [[]]))),
      lineBoundaryId s.1 = some s.2.1 ∧ ∀ l ∈ s.2.2, lineBoundaryId l = none := by
    intro s hs
    rw [List.mem_map] at hs
    obtain ⟨sec, hsec, rfl⟩ := hs
    refine ⟨title_boundaries sec hsec, ?_⟩
    intro l hl
    obtain ⟨d, hdo, hdne, hdfix, hdlines⟩ := hfill sec hsec
    have hec : exportContent gdd sec = d.content := exportContent_filled gdd sec d hdo hdne
    rcases List.mem_cons.mp hl with rfl | hl2
    · decide
    · rcases List.mem_append.mp hl2 with hl3 | hl3
      · rw [hec] at hl3
        exact hdlines l hl3
      · rw [List.mem_singleton] at hl3
        subst hl3
        decide
  have htrail : ∀ l ∈ ([[]] : List Str), lineBoundaryId l = none := by
    intro l hl
    rw [List.mem_singleton] at hl
    subst hl
    decide
  have hbs : scanBoundaries (splitNl (generateMarkdownExport env p gdd)) 0 ≠ [] := by
    rw [hlines,
      scanBoundaries_append_none (exportHeaderLines env p) (header_lines_no_boundary env p) _ 0]
    exact scan_segs_ne_nil _ [[]] _
      (fun s hs => (hsegsafe s hs).1) (by simp [GDD_SECTIONS])
  rw [parseMarkdownImport_gdd, if_neg hbs, hlines,
    scanBoundaries_append_none (exportHeaderLines env p) (header_lines_no_boundary env p) _ 0,
    Nat.zero_add,
    scanBoundaries_shift _ (exportHeaderLines env p).length,
    collect_shift env (exportHeaderLines env p) _ _ [],
    collect_segments env [[]] htrail _ [] hsegsafe]
  have hps : ∀ x ∈ GDD_SECTIONS.map (fun sec =>
        (strL ("## ") ++ sec.title, sec.id, exportContent gdd sec)),
      x.2.2 ≠ [] ∧ trimJs x.2.2 = x.2.2 := by
    intro x hx
    rw [List.mem_map] at hx
    obtain ⟨sec, hsec, rfl⟩ := hx
    obtain ⟨d, hdo, hdne, hdfix, _⟩ := hfill sec hsec
    have hec : exportContent gdd sec = d.content := exportContent_filled gdd sec d hdo hdne
    constructor
    · show exportContent gdd sec ≠ []
      rw [hec]
      exact hdne
    · show trimJs (exportContent gdd sec) = exportContent gdd sec
      rw [hec]
      exact hdfix
  have hpne : GDD_SECTIONS.map (fun sec =>
        (strL ("## ") ++ sec.title, sec.id, exportContent gdd sec)) ≠ [] := by
    simp [GDD_SECTIONS]
  have hmm2 : GDD_SECTIONS.map (fun sec =>
        (strL ("## ") ++ sec.title, sec.id, [] :: (splitNl (exportContent gdd sec) ++ [[]])))
      = (GDD_SECTIONS.map (fun sec =>
          (strL ("## ") ++ sec.title, sec.id, exportContent gdd sec))).map
          (fun x => (x.1, x.2.1, [] :: (splitNl x.2.2 ++ [[]]))) := by
    rw [List.map_map]
    apply List.map_congr_left
    intro sec _
    rfl
  rw [hmm2, fold_segs env _ [] hps hpne]
  have hnd : (GDD_SECTIONS.map (fun sec => sec.id)).Nodup := by decide
  have hlook := objGet_foldl_insert
    (fun sec => ({ content := exportContent gdd sec, lastUpdated := some env.nowIso }
      : SectionData)) GDD_SECTIONS [] k hnd
  have hbridge : (GDD_SECTIONS.map (fun sec =>
        (strL ("## ") ++ sec.title, sec.id, exportContent gdd sec))).foldl
        (fun acc x => objSet acc x.2.1
          ({ content := x.2.2, lastUpdated := some env.nowIso } : SectionData)) []
      = GDD_SECTIONS.foldl (fun acc sec => objSet acc sec.id
          ({ content := exportContent gdd sec, lastUpdated := some env.nowIso }
            : SectionData)) [] := by
    rw [List.foldl_map]
  rw [hbridge, hlook]
  cases hf : GDD_SECTIONS.find? (fun sec => sec.id == k) with
  | some sec =>
    have hmem := List.mem_of_find?_eq_some hf
    have hpa := List.find?_some hf
    have hid : sec.id = k := eq_of_beq hpa
    obtain ⟨d, hdo, hdne, _, _⟩ := hfill sec hmem
    have hec : exportContent gdd sec = d.content := exportContent_filled gdd sec d hdo hdne
    rw [← hid, hdo]
    show some (exportContent gdd sec) = some d.content
    rw [hec]
  | none =>
    have hno := List.find?_eq_none.mp hf
    cases hgk : objGet gdd k with
    | none => rfl
    | some d =>
      have hmem2 : (k, d) ∈ gdd := mem_of_objGet_eq_some gdd k d hgk
      have hkid := hdom (k, d) hmem2
      unfold registryIds at hkid
      rw [List.mem_map] at hkid
      obtain ⟨sec, hsec, hid2⟩ := hkid
      exact absurd (beq_iff_eq.mpr hid2) (hno sec hsec)

/-- Counterexample to the unrestricted C1 statement: starting from an
empty Section Content map, the export writes the placeholder paragraph
under every heading and the import reads it back as real content, so the
overview key gains content and the round trip is not a fixed point. -/
theorem export_import_not_fixed_point :
    (objGet (parseMarkdownImport testEnv
        (generateMarkdownExport testEnv fixtureProject [])).gdd
        (strL ("overview"))).map SectionData.content
      ≠ (objGet ([] : Gdd) (strL ("overview"))).map SectionData.content := by
  decide

/-- Witness for C1: the round-trip theorem applied to the fully filled
concrete fixture at the overview key, with every hypothesis discharged
by evaluation. -/
theorem export_import_content_roundtrip_witness :
    (objGet (parseMarkdownImport testEnv
        (generateMarkdownExport testEnv fixtureProject fixtureFullGdd)).gdd
        (strL ("overview"))).map SectionData.content
      = (objGet fixtureFullGdd (strL ("overview"))).map SectionData.content :=
  export_import_content_roundtrip testEnv fixtureProject fixtureFullGdd
    (by decide) (by decide) (by decide) (by decide) (by decide) (by decide)
    (by
      intro sec hsec
      fin_cases hsec <;> exact ⟨_, rfl, by decide⟩)
    (strL ("overview"))
